import Mathlib

/-!
# Verification of the stack-based EVM executor (`src/modules/evm/src/executor/stack.rs`)

A shallow embedding of the executor core: the substate stack (layered
copy-on-write overlays over an immutable backend), the call/create engine,
the value-transfer helpers, the host mutation callbacks, and the final
journal builder (`deconstruct`).

Modelling conventions:
* `H160` addresses and `H256` hashes/words are modelled as `Nat`
  (lexicographic byte order on fixed-width ids coincides with numeric order).
* `U256` is modelled as `Nat`.  `primitive_types::U256` addition panics on
  overflow (it never wraps), so every non-panicking Rust execution stays
  below `2^256` and is covered by the unbounded model; subtraction is only
  performed after an explicit `<` guard, matching truncated `Nat`
  subtraction on the guarded range.
* `BTreeMap<K, V>` is an association list sorted by strictly increasing key;
  `BTreeSet<K>` a sorted duplicate-free list.  `append` follows the Rust
  semantics: all entries of `other` move into `self`, entries of `other`
  win on key collision.
* The substate `Vec` is a `List` with the *head* as the innermost (top)
  frame, i.e. the reverse of the Rust `Vec` (whose `last()` is the top).
* The opcode interpreter (`Runtime`) and the precompile are external
  collaborators; they are parameters (`RunOracle`, `Precompile`).
* The gasometer module is not part of the analysed source; it is modelled
  from the spec through its narrow interface (remaining gas, refund
  counter, cost recording that fails and poisons on exhaustion).
-/

namespace CloverEvm

/-! ## Scalars and external data types -/

/-- `Basic` account information (`crate::backend::Basic`): balance and nonce. -/
structure Basic where
  balance : Nat
  nonce : Nat
deriving Repr, DecidableEq, Inhabited

/-- `StackAccount`: the transient per-frame view of one account
(`stack.rs` lines 11–22). `code = none` means "not yet loaded from the
backend"; `storage` holds only the touched slots. -/
structure StackAccount where
  basic : Basic
  code : Option (List Nat)
  storage : List (Nat × Nat)
  reset_storage : Bool
deriving Repr, DecidableEq, Inhabited

/-- `Log` entry (`crate::backend::Log`). -/
structure Log where
  address : Nat
  topics : List Nat
  data : List Nat
deriving Repr, DecidableEq, Inhabited

/-- `InternalTransaction` (`crate::backend::InternalTransaction`): one trace
record per interpreter-driven sub-call.  The source always sets the
`developer` fields to `None`. -/
structure InternalTransaction where
  parent : Nat
  node : Nat
  gas_used : Nat
  developer : Option Nat
  developer_reward : Option Nat
deriving Repr, DecidableEq, Inhabited

/-- The `ExitError` variants exercised by the executor core. -/
inductive ExitError where
  | OutOfGas
  | OutOfFund
  | CallTooDeep
  | CreateCollision
  | CreateContractLimit
deriving Repr, DecidableEq, Inhabited

/-- `ExitSucceed` kinds. -/
inductive ExitSucceed where
  | Stopped
  | Returned
  | Suicided
deriving Repr, DecidableEq, Inhabited

/-- `ExitReason`: classification of a frame's outcome. -/
inductive ExitReason where
  | Succeed (s : ExitSucceed)
  | Error (e : ExitError)
  | Revert
  | Fatal
deriving Repr, DecidableEq, Inhabited

/-- `StackExitKind` (`stack.rs` lines 24–28). -/
inductive StackExitKind where
  | Succeeded
  | Reverted
  | Failed
deriving Repr, DecidableEq, Inhabited

/-- `Context` of an interpreter frame: `{ address, caller, apparent_value }`. -/
structure Context where
  address : Nat
  caller : Nat
  apparent_value : Nat
deriving Repr, DecidableEq, Inhabited

/-- A value `Transfer { source, target, value }`. -/
structure TransferT where
  source : Nat
  target : Nat
  value : Nat
deriving Repr, DecidableEq, Inhabited

/-- `CreateScheme`. -/
inductive CreateScheme where
  | Legacy (caller : Nat)
  | Create2 (caller : Nat) (code_hash : Nat) (salt : Nat)
  | Fixed (address : Nat)
deriving Repr, DecidableEq, Inhabited

/-- The configuration fields consumed by the executor core. -/
structure EvmConfig where
  call_stack_limit : Nat
  call_l64_after_gas : Bool
  call_stipend : Nat
  create_contract_limit : Option Nat
  create_increase_nonce : Bool
  empty_considered_exists : Bool
deriving Repr, DecidableEq, Inhabited

/-- `Apply`: a final journal entry, either a whole-account `Modify` or a
`Delete` (`crate::backend::Apply`). -/
inductive Apply where
  | Modify (address : Nat) (basic : Basic) (code : Option (List Nat))
      (storage : List (Nat × Nat)) (reset_storage : Bool)
  | Delete (address : Nat)
deriving Repr, DecidableEq, Inhabited

/-- The read-only backend, as the narrow surface the executor consumes. -/
structure Backend where
  basic : Nat → Basic
  code : Nat → List Nat
  storage : Nat → Nat → Nat

/-! ## Sorted association lists (the `BTreeMap` model) -/

/-- Ordered insert that replaces an existing binding for the same key
(`BTreeMap::insert`, also the write through a `get_mut` handle). -/
def alInsert (k : Nat) (v : α) : List (Nat × α) → List (Nat × α)
  | [] => [(k, v)]
  | (k', v') :: rest =>
    if k < k' then (k, v) :: (k', v') :: rest
    else if k = k' then (k, v) :: rest
    else (k', v') :: alInsert k v rest

/-- Key lookup (`BTreeMap::get`). -/
def alLookup (k : Nat) : List (Nat × α) → Option α
  | [] => none
  | (k', v') :: rest => if k = k' then some v' else alLookup k rest

/-- `self.append(&mut other)` on `BTreeMap`: every entry of `other` moves
into `self`; on key collision the value from `other` overwrites. -/
def alAppend (self other : List (Nat × α)) : List (Nat × α) :=
  other.foldl (fun m kv => alInsert kv.1 kv.2 m) self

/-- First-some choice on options (`newest-wins` combination). -/
def optOr (x y : Option α) : Option α :=
  match x with
  | some v => some v
  | none => y

/-- Ordered duplicate-free insert (`BTreeSet::insert`). -/
def slInsert (k : Nat) : List Nat → List Nat
  | [] => [k]
  | x :: rest =>
    if k < x then k :: x :: rest
    else if k = x then x :: rest
    else x :: slInsert k rest

/-- `self.append(&mut other)` on `BTreeSet`: set union into `self`. -/
def slAppend (self other : List Nat) : List Nat :=
  other.foldl (fun s k => slInsert k s) self

/-! ## Gasometer (modelled from the spec) -/

/-- Modelled from the spec: the gasometer module (`crate::gasometer`) is not
part of the analysed source.  Only its narrow interface is represented:
remaining gas within the frame's limit, a signed refund counter, and the
poisoned ("failed") state in which `gas()` reads zero. -/
structure Gasometer where
  gas_limit : Nat
  remaining : Nat
  refunded : Int
deriving Repr, DecidableEq, Inhabited

/-- Modelled from the spec: `Gasometer::new(gas_limit, config)` starts with
the full limit remaining and no refund. -/
def Gasometer.new (limit : Nat) : Gasometer :=
  ⟨limit, limit, 0⟩

/-- Modelled from the spec: `gas()`, the remaining gas of the frame. -/
def Gasometer.gas (g : Gasometer) : Nat := g.remaining

/-- Modelled from the spec: `record_cost` subtracts `cost` from the
remaining gas, failing with `OutOfGas` when it would go negative. -/
def Gasometer.record_cost (g : Gasometer) (cost : Nat) : Except ExitError Gasometer :=
  if g.remaining < cost then .error .OutOfGas
  else .ok { g with remaining := g.remaining - cost }

/-- Modelled from the spec: `record_transaction` charges the intrinsic
transaction cost like an ordinary cost. -/
def Gasometer.record_transaction (g : Gasometer) (cost : Nat) : Except ExitError Gasometer :=
  g.record_cost cost

/-- Modelled from the spec: `fail()` marks the gasometer fully consumed. -/
def Gasometer.fail (g : Gasometer) : Gasometer :=
  { g with remaining := 0 }

/-- Modelled from the spec: `record_cost` through a discarded `Result`
(`let _ = ... .record_cost(cost)`): on failure the gasometer is poisoned
and reads zero remaining gas. -/
def Gasometer.record_cost_poison (g : Gasometer) (cost : Nat) : Gasometer :=
  match g.record_cost cost with
  | .ok g' => g'
  | .error _ => g.fail

/-- Modelled from the spec: `record_stipend` returns unused child gas to
the frame. -/
def Gasometer.record_stipend (g : Gasometer) (stipend : Nat) : Gasometer :=
  { g with remaining := g.remaining + stipend }

/-- Modelled from the spec: `refunded_gas()`. -/
def Gasometer.refunded_gas (g : Gasometer) : Int := g.refunded

/-- Modelled from the spec: `record_refund` accumulates the child's refund. -/
def Gasometer.record_refund (g : Gasometer) (refund : Int) : Gasometer :=
  { g with refunded := g.refunded + refund }

/-- Modelled from the spec: `gasometer::create_transaction_cost` —
the intrinsic cost of a create transaction (exact table out of scope). -/
def create_transaction_cost (_init_code : List Nat) : Nat := 53000

/-- Modelled from the spec: `gasometer::call_transaction_cost` —
the intrinsic cost of a call transaction (exact table out of scope). -/
def call_transaction_cost (_data : List Nat) : Nat := 21000

/-- Modelled from the spec: `record_deposit` charges the code-deposit cost
proportional to the returned length. -/
def Gasometer.record_deposit (g : Gasometer) (len : Nat) : Except ExitError Gasometer :=
  g.record_cost (200 * len)

/-! ## Substates -/

/-- `StackSubstate` (`stack.rs` lines 30–37). -/
structure StackSubstate where
  gasometer : Gasometer
  state : List (Nat × StackAccount)
  deleted : List Nat
  logs : List Log
  is_static : Bool
  depth : Option Nat
deriving Repr, DecidableEq, Inhabited

/-- The substate stack.  Head = innermost (top) frame, i.e. the reverse of
the Rust `Vec` where `last()` is the top. -/
abbrev Substates := List StackSubstate

/-- The mutable part of `StackExecutor`: the substate stack and the
internal-call trace (`call_graph`). -/
structure StackExecutor where
  substates : Substates
  call_graph : List InternalTransaction
deriving Repr, DecidableEq, Inhabited

/-- Newest-to-oldest account scan (`StackExecutor::account`, lines
319–327): first frame that has the address wins. -/
def account_lookup : Substates → Nat → Option StackAccount
  | [], _ => none
  | s :: rest, a =>
    match alLookup a s.state with
    | some acct => some acct
    | none => account_lookup rest a

/-- The account synthesized by `account_mut` when no frame has the address:
`basic` from the backend, unknown code, empty storage. -/
def default_account (B : Backend) (a : Nat) : StackAccount :=
  ⟨B.basic a, none, [], false⟩

/-- The value `account_mut` would install for `a`: the newest frame's copy
if any, else the backend-synthesized default. -/
def viewAccount (B : Backend) (subs : Substates) (a : Nat) : StackAccount :=
  (account_lookup subs a).getD (default_account B a)

/-- The first half of `account_mut` (lines 330–348): ensure the address is
present in the top frame, cloning it from the newest ancestor or
synthesizing it from the backend. -/
def touch (B : Backend) (subs : Substates) (a : Nat) : Substates :=
  match subs with
  | [] => []
  | top :: rest =>
    if (alLookup a top.state).isSome then top :: rest
    else { top with state := alInsert a (viewAccount B (top :: rest) a) top.state } :: rest

/-- Read the top frame's entry for `a` (the handle `account_mut` returns). -/
def topLookup (subs : Substates) (a : Nat) : Option StackAccount :=
  match subs with
  | top :: _ => alLookup a top.state
  | [] => none

/-- Write through the `account_mut` handle: replace the top frame's entry. -/
def setTopAccount (subs : Substates) (a : Nat) (acct : StackAccount) : Substates :=
  match subs with
  | top :: rest => { top with state := alInsert a acct top.state } :: rest
  | [] => []

/-- `account_mut` followed by an in-place mutation `f` of the account. -/
def account_mut_update (B : Backend) (subs : Substates) (a : Nat)
    (f : StackAccount → StackAccount) : Substates :=
  let subs1 := touch B subs a
  match topLookup subs1 a with
  | some acct => setTopAccount subs1 a (f acct)
  | none => subs1

/-- `balance` handler (lines 735–743): newest frame wins, backend fallback. -/
def balanceOf (B : Backend) (subs : Substates) (a : Nat) : Nat :=
  match account_lookup subs a with
  | some acct => acct.basic.balance
  | none => (B.basic a).balance

/-- `nonce` method (lines 358–366): newest frame wins, backend fallback. -/
def nonceOf (B : Backend) (subs : Substates) (a : Nat) : Nat :=
  match account_lookup subs a with
  | some acct => acct.basic.nonce
  | none => (B.basic a).nonce

/-- `code` handler (lines 783–787): the newest frame's loaded code if any,
else the backend's code. -/
def codeOf (B : Backend) (subs : Substates) (a : Nat) : List Nat :=
  ((account_lookup subs a).bind (fun v => v.code)).getD (B.code a)

/-- `storage` handler (lines 789–802): a recorded slot wins; an unrecorded
slot of a reset account reads zero; otherwise the backend value. -/
def storageOf (B : Backend) (subs : Substates) (a index : Nat) : Nat :=
  match account_lookup subs a with
  | some v =>
    match alLookup index v.storage with
    | some s => s
    | none => if v.reset_storage then 0 else B.storage a index
  | none => B.storage a index

/-- The top frame's remaining gas (`StackExecutor::gas`, lines 155–159). -/
def topGas (subs : Substates) : Nat :=
  match subs with
  | top :: _ => top.gasometer.gas
  | [] => 0

/-- The top frame's depth. -/
def topDepth (subs : Substates) : Option Nat :=
  match subs with
  | top :: _ => top.depth
  | [] => none

/-- The top frame's static flag. -/
def topIsStatic (subs : Substates) : Bool :=
  match subs with
  | top :: _ => top.is_static
  | [] => false

/-- The top frame's state map. -/
def topState (subs : Substates) : List (Nat × StackAccount) :=
  match subs with
  | top :: _ => top.state
  | [] => []

/-- The top frame's deleted set. -/
def topDeleted (subs : Substates) : List Nat :=
  match subs with
  | top :: _ => top.deleted
  | [] => []

/-- The top frame's log sequence. -/
def topLogs (subs : Substates) : List Log :=
  match subs with
  | top :: _ => top.logs
  | [] => []

/-- Mark the top frame's gasometer failed (`gasometer.fail()` through
`substates.last_mut()`). -/
def failTop (subs : Substates) : Substates :=
  match subs with
  | top :: rest => { top with gasometer := top.gasometer.fail } :: rest
  | [] => []

/-- `enter_substate` (lines 93–114): push a fresh frame; the child is
static if the parent is or the call is; the child's depth is `0` above the
outermost frame, else `parent + 1`.  (The Rust code panics on an empty
stack; that branch is unreachable and modelled as the identity.) -/
def enter_substate (subs : Substates) (gas_limit : Nat) (is_static : Bool) : Substates :=
  match subs with
  | [] => []
  | parent :: rest =>
    ⟨Gasometer.new gas_limit, [], [], [], is_static || parent.is_static,
      match parent.depth with
      | none => some 0
      | some n => some (n + 1)⟩ :: parent :: rest

/-- `exit_substate` (lines 117–144): pop the exited frame, always append
its logs to the parent; on `Succeeded` additionally union `deleted`, merge
`state` (child entries overwrite parent entries wholesale) and credit the
child's remaining gas as stipend and its refund as refund; on `Reverted`
only the stipend; on `Failed` nothing else.  (The Rust code asserts a
stack of length `> 1`; the violating branch is unreachable and modelled as
the identity.) -/
def exit_substate (subs : Substates) (kind : StackExitKind) : Substates :=
  match subs with
  | exited :: parent :: rest =>
    let parent1 := { parent with logs := parent.logs ++ exited.logs }
    (match kind with
     | .Succeeded =>
       { parent1 with
         deleted := slAppend parent1.deleted exited.deleted,
         state := alAppend parent1.state exited.state,
         gasometer :=
           (parent1.gasometer.record_stipend exited.gasometer.gas).record_refund
             exited.gasometer.refunded_gas }
     | .Reverted =>
       { parent1 with
         gasometer := parent1.gasometer.record_stipend exited.gasometer.gas }
     | .Failed => parent1) :: rest
  | _ => subs

/-! ## Value movement -/

/-- `withdraw` (lines 369–377): `account_mut` the source (inserting it into
the top frame even on failure), fail with `OutOfFund` when the balance is
insufficient, otherwise subtract. -/
def withdraw (B : Backend) (subs : Substates) (address value : Nat) :
    Substates × Option ExitError :=
  let subs1 := touch B subs address
  let source := (topLookup subs1 address).getD default
  if source.basic.balance < value then (subs1, some .OutOfFund)
  else
    (setTopAccount subs1 address
      { source with basic := { source.basic with balance := source.basic.balance - value } },
     none)

/-- `deposit` (lines 380–383): `account_mut` the target and add. -/
def deposit (B : Backend) (subs : Substates) (address value : Nat) : Substates :=
  account_mut_update B subs address
    (fun target => { target with basic := { target.basic with balance := target.basic.balance + value } })

/-- `transfer` (lines 386–391): withdraw from the source, and only on
success deposit to the target. -/
def transfer (B : Backend) (subs : Substates) (t : TransferT) :
    Substates × Option ExitError :=
  match withdraw B subs t.source t.value with
  | (subs1, some e) => (subs1, some e)
  | (subs1, none) => (deposit B subs1 t.target t.value, none)

/-! ## Host mutation callbacks -/

/-- `set_storage` handler (lines 856–860): insert the slot through
`account_mut` and return `Ok(())` unconditionally. -/
def set_storage (B : Backend) (subs : Substates) (address index value : Nat) :
    Substates × Except ExitError Unit :=
  (account_mut_update B subs address
    (fun a => { a with storage := alInsert index value a.storage }),
   .ok ())

/-- `log` handler (lines 862–870): push the entry onto the current frame's
log sequence and return `Ok(())` unconditionally. -/
def log_append (subs : Substates) (address : Nat) (topics : List Nat) (data : List Nat) :
    Substates × Except ExitError Unit :=
  match subs with
  | top :: rest => ({ top with logs := top.logs ++ [⟨address, topics, data⟩] } :: rest, .ok ())
  | [] => ([], .ok ())

/-- `mark_delete` handler (lines 872–887): transfer the full balance to the
beneficiary, zero the balance, add the address to the top frame's deleted
set. -/
def mark_delete (B : Backend) (subs : Substates) (address target : Nat) :
    Substates × Option ExitError :=
  let balance := balanceOf B subs address
  match transfer B subs ⟨address, target, balance⟩ with
  | (subs1, some e) => (subs1, some e)
  | (subs1, none) =>
    let subs2 := account_mut_update B subs1 address
      (fun a => { a with basic := { a.basic with balance := 0 } })
    match subs2 with
    | top :: rest => ({ top with deleted := slInsert address top.deleted } :: rest, none)
    | [] => ([], none)

/-! ## Gas-limit computation for nested frames -/

/-- The local `l64` helper of `call_inner`/`create_inner`:
`gas - gas / 64`. -/
def l64 (gas : Nat) : Nat := gas - gas / 64

/-- The child gas limit computed by `call_inner` (lines 608–617):
`after_gas` is the caller frame's remaining gas, reduced by the 63/64 rule
when `take_l64` and the config permit; the limit is
`min(target_gas.unwrap_or(after_gas), after_gas)`. -/
def call_gas_limit (C : EvmConfig) (take_l64 : Bool) (after_gas0 : Nat)
    (target_gas : Option Nat) : Nat :=
  let after_gas := if take_l64 && C.call_l64_after_gas then l64 after_gas0 else after_gas0
  let target := target_gas.getD after_gas
  min target after_gas

/-- The child gas limit computed by `create_inner` (lines 452–460):
identical up to the argument order of `min`. -/
def create_gas_limit (C : EvmConfig) (take_l64 : Bool) (after_gas0 : Nat)
    (target_gas : Option Nat) : Nat :=
  let after_gas := if take_l64 && C.call_l64_after_gas then l64 after_gas0 else after_gas0
  let target := target_gas.getD after_gas
  min after_gas target

/-! ## The call engine -/

/-- The precompile surface: `fn(H160, &[u8], Option<usize>) ->
Option<Result<(ExitSucceed, Vec<u8>, usize), ExitError>>`. -/
abbrev Precompile := Nat → List Nat → Option Nat →
  Option (Except ExitError (ExitSucceed × List Nat × Nat))

/-- `no_precompile` (lines 49–55). -/
def no_precompile : Precompile := fun _ _ _ => none

/-- The external interpreter (`Runtime::new(code, input, context)` driven by
`execute`): given the program, input, context, and the executor state at
frame entry, it yields the executor state at frame end (including any
nested host calls it performed), the exit reason, and
`machine().return_value()`. -/
abbrev RunOracle := List Nat → List Nat → Context → StackExecutor →
  StackExecutor × ExitReason × List Nat

/-- The stages of `call_inner` (lines 584–672) before the interpreter is
driven, in source order: gas-limit computation and `record_cost`, the
optional stipend, code load, `enter_substate` plus the touch of
`context.address`, the depth check (Reverted + `CallTooDeep` beyond the
limit), the optional value transfer (Reverted on failure), and the
precompile (Succeeded/Failed without an interpreter run).  `Except.error`
carries a completed call (final substates, reason, return value);
`Except.ok` carries the entered frame ready for the interpreter together
with the effective `gas_limit` and the loaded code.  None of these stages
touches the internal-call trace. -/
def call_inner_pre (B : Backend) (C : EvmConfig) (pre : Precompile)
    (subs : Substates) (code_address : Nat) (transfer? : Option TransferT)
    (input : List Nat) (target_gas : Option Nat)
    (is_static take_l64 take_stipend : Bool) (context : Context) :
    Except (Substates × ExitReason × List Nat) (Substates × Nat × List Nat) :=
  match subs with
  | [] => .error ([], .Fatal, [])
  | top :: rest =>
    let gas_limit0 := call_gas_limit C take_l64 top.gasometer.gas target_gas
    match top.gasometer.record_cost gas_limit0 with
    | .error e => .error (top :: rest, .Error e, [])
    | .ok g1 =>
      let gas_limit :=
        match transfer? with
        | some t => if take_stipend && decide (t.value ≠ 0)
                    then gas_limit0 + C.call_stipend else gas_limit0
        | none => gas_limit0
      let subs1 := { top with gasometer := g1 } :: rest
      let code := codeOf B subs1 code_address
      let subs2 := enter_substate subs1 gas_limit is_static
      let subs3 := touch B subs2 context.address
      let depthExceeded :=
        match topDepth subs3 with
        | some d => decide (d > C.call_stack_limit)
        | none => false
      if depthExceeded then
        .error (exit_substate subs3 .Reverted, .Error .CallTooDeep, [])
      else
        let transferResult :=
          match transfer? with
          | some t => transfer B subs3 t
          | none => (subs3, none)
        match transferResult with
        | (subs4, some e) => .error (exit_substate subs4 .Reverted, .Error e, [])
        | (subs4, none) =>
          match pre code_address input (some gas_limit) with
          | some (.ok (s, out, cost)) =>
            let subs5 :=
              match subs4 with
              | t :: r => { t with gasometer := t.gasometer.record_cost_poison cost } :: r
              | [] => []
            .error (exit_substate subs5 .Succeeded, .Succeed s, out)
          | some (.error e) => .error (exit_substate subs4 .Failed, .Error e, [])
          | none => .ok (subs4, gas_limit, code)

/-- `call_inner` (lines 584–726): the pre-stages, then the interpreter
drive; on interpreter exit, one `InternalTransaction { parent =
context.caller, node = context.address, gas_used = gas_limit - remaining }`
is appended to the trace before the exit kind is classified (Succeeded /
Failed / Reverted / gasometer-failed + Failed on Fatal). -/
def call_inner (B : Backend) (C : EvmConfig) (pre : Precompile) (O : RunOracle)
    (ex : StackExecutor) (code_address : Nat) (transfer? : Option TransferT)
    (input : List Nat) (target_gas : Option Nat)
    (is_static take_l64 take_stipend : Bool) (context : Context) :
    StackExecutor × ExitReason × List Nat :=
  match call_inner_pre B C pre ex.substates code_address transfer? input
      target_gas is_static take_l64 take_stipend context with
  | .error (subs, r, v) => (⟨subs, ex.call_graph⟩, r, v)
  | .ok (subs1, gas_limit, code) =>
    let run := O code input context ⟨subs1, ex.call_graph⟩
    let ex2 := run.1
    let reason := run.2.1
    let rv := run.2.2
    let current_gas := topGas ex2.substates
    let logcall : InternalTransaction :=
      ⟨context.caller, context.address, gas_limit - current_gas, none, none⟩
    let graph3 := ex2.call_graph ++ [logcall]
    match reason with
    | .Succeed s => (⟨exit_substate ex2.substates .Succeeded, graph3⟩, .Succeed s, rv)
    | .Error e => (⟨exit_substate ex2.substates .Failed, graph3⟩, .Error e, [])
    | .Revert => (⟨exit_substate ex2.substates .Reverted, graph3⟩, .Revert, rv)
    | .Fatal => (⟨exit_substate (failTop ex2.substates) .Failed, graph3⟩, .Fatal, [])

/-- The substate stack of `call_inner` just after the cost has been
recorded, the child frame entered and `context.address` touched — the
state at which the depth check runs (assembled from the same stages as
`call_inner_pre`). -/
def call_entered (B : Backend) (C : EvmConfig) (top : StackSubstate) (rest : Substates)
    (target_gas : Option Nat) (is_static take_l64 take_stipend : Bool)
    (transfer? : Option TransferT) (context : Context) : Substates :=
  let gas_limit0 := call_gas_limit C take_l64 top.gasometer.gas target_gas
  let gas_limit :=
    match transfer? with
    | some t => if take_stipend && decide (t.value ≠ 0)
                then gas_limit0 + C.call_stipend else gas_limit0
    | none => gas_limit0
  touch B (enter_substate
    ({ top with gasometer := { top.gasometer with
         remaining := top.gasometer.remaining - gas_limit0 } } :: rest)
    gas_limit is_static) context.address

/-! ## The create engine -/

/-- The external Keccak-256 digests used by address derivation
(`sha3`/`rlp` crates): abstract hash oracles. -/
structure HashOracle where
  keccakRlpLegacy : Nat → Nat → Nat
  keccakCreate2 : Nat → Nat → Nat → Nat
  keccakBytes : List Nat → Nat

/-- `create_address` (lines 394–415): `Create2` hashes
`0xff ‖ caller ‖ salt ‖ code_hash`; `Legacy` hashes the RLP list of the
caller and its *current* nonce; `Fixed` is the literal address. -/
def create_address (H : HashOracle) (B : Backend) (subs : Substates)
    (scheme : CreateScheme) : Nat :=
  match scheme with
  | .Create2 caller code_hash salt => H.keccakCreate2 caller salt code_hash
  | .Legacy caller => H.keccakRlpLegacy caller (nonceOf B subs caller)
  | .Fixed naddress => naddress

/-- The depth guard shared by `create_inner` (lines 439–446): the check
fires when the frame's depth is defined and exceeds the stack limit. -/
def depth_exceeded (C : EvmConfig) (d? : Option Nat) : Bool :=
  match d? with
  | some d => decide (d > C.call_stack_limit)
  | none => false

/-- The code the collision check of `create_inner` effectively tests
(lines 472–486): the code already loaded into the substate overlay if
present, else the code freshly read from the backend. -/
def effective_code (B : Backend) (subs : Substates) (a : Nat) : List Nat :=
  match (viewAccount B subs a).code with
  | some c => c
  | none => B.code a

/-- `create_inner` (lines 417–582), in source order: depth check on the
*current* frame, caller balance check, gas-limit computation and
`record_cost`, address derivation, caller nonce increment, frame entry,
collision checks in the child frame (non-empty code already loaded or
freshly read from the backend, then non-zero nonce — each exits `Failed`
with `CreateCollision`), storage reset, value transfer (Reverted on
failure), optional new-account nonce bump, interpreter drive on the init
code, and outcome classification including the deployed-code size limit
and the deposit cost. -/
def create_inner (B : Backend) (C : EvmConfig) (H : HashOracle) (O : RunOracle)
    (ex : StackExecutor) (caller : Nat) (scheme : CreateScheme) (value : Nat)
    (init_code : List Nat) (target_gas : Option Nat) (take_l64 : Bool) :
    StackExecutor × ExitReason × Option Nat × List Nat :=
  match ex.substates with
  | [] => (ex, .Fatal, none, [])
  | top :: rest =>
    if depth_exceeded C top.depth then (ex, .Error .CallTooDeep, none, [])
    else if balanceOf B ex.substates caller < value then
      (ex, .Error .OutOfFund, none, [])
    else
      let gas_limit := create_gas_limit C take_l64 top.gasometer.gas target_gas
      match top.gasometer.record_cost gas_limit with
      | .error e => (ex, .Error e, none, [])
      | .ok g1 =>
        let subs1 := { top with gasometer := g1 } :: rest
        let address := create_address H B subs1 scheme
        let subs2 := account_mut_update B subs1 caller
          (fun a => { a with basic := { a.basic with nonce := a.basic.nonce + 1 } })
        let subs3 := enter_substate subs2 gas_limit false
        let subs4 := touch B subs3 address
        let acct := (topLookup subs4 address).getD default
        let codeStep : Substates × Bool :=
          match acct.code with
          | some c => (subs4, decide (c.length ≠ 0))
          | none =>
            let code := B.code address
            (account_mut_update B subs4 address (fun a => { a with code := some code }),
             decide (code.length ≠ 0))
        let subs5 := codeStep.1
        if codeStep.2 then
          (⟨exit_substate subs5 .Failed, ex.call_graph⟩, .Error .CreateCollision, none, [])
        else if 0 < nonceOf B subs5 address then
          (⟨exit_substate subs5 .Failed, ex.call_graph⟩, .Error .CreateCollision, none, [])
        else
          let subs6 := account_mut_update B subs5 address
            (fun a => { a with reset_storage := true })
          let subs7 := account_mut_update B subs6 address
            (fun a => { a with storage := [] })
          let context : Context := ⟨address, caller, value⟩
          match transfer B subs7 ⟨caller, address, value⟩ with
          | (subs8, some e) =>
            (⟨exit_substate subs8 .Reverted, ex.call_graph⟩, .Error e, none, [])
          | (subs8, none) =>
            let subs9 :=
              if C.create_increase_nonce then
                account_mut_update B subs8 address
                  (fun a => { a with basic := { a.basic with nonce := a.basic.nonce + 1 } })
              else subs8
            let run := O init_code [] context ⟨subs9, ex.call_graph⟩
            let ex2 := run.1
            let reason := run.2.1
            let rv := run.2.2
            match reason with
            | .Succeed s =>
              let out := rv
              let limitExceeded :=
                match C.create_contract_limit with
                | some limit => decide (out.length > limit)
                | none => false
              if limitExceeded then
                (⟨exit_substate (failTop ex2.substates) .Failed, ex2.call_graph⟩,
                 .Error .CreateContractLimit, none, [])
              else
                match ex2.substates with
                | [] => (⟨[], ex2.call_graph⟩, .Fatal, none, [])
                | t :: r =>
                  match t.gasometer.record_deposit out.length with
                  | .ok g' =>
                    let subsA := exit_substate ({ t with gasometer := g' } :: r) .Succeeded
                    let subsB := account_mut_update B subsA address
                      (fun a => { a with code := some out })
                    (⟨subsB, ex2.call_graph⟩, .Succeed s, some address, [])
                  | .error e =>
                    (⟨exit_substate (t :: r) .Failed, ex2.call_graph⟩, .Error e, none, [])
            | .Error e =>
              (⟨exit_substate (failTop ex2.substates) .Failed, ex2.call_graph⟩, .Error e, none, [])
            | .Revert =>
              (⟨exit_substate ex2.substates .Reverted, ex2.call_graph⟩, .Revert, none, rv)
            | .Fatal =>
              (⟨exit_substate (failTop ex2.substates) .Failed, ex2.call_graph⟩, .Fatal, none, [])

/-- The substate stack after `create_inner` has recorded the child gas cost
and bumped the caller's nonce — exactly what remains when the child frame
is discarded by a `Failed` exit during the collision checks (the child's
log sequence is still empty at that point, so the parent frame is
unchanged by the exit). -/
def create_collided (B : Backend) (C : EvmConfig) (top : StackSubstate)
    (rest : Substates) (caller : Nat) (target_gas : Option Nat) (take_l64 : Bool) :
    Substates :=
  let gl := create_gas_limit C take_l64 top.gasometer.gas target_gas
  account_mut_update B
    ({ top with gasometer := { top.gasometer with
         remaining := top.gasometer.remaining - gl } } :: rest)
    caller
    (fun a => { a with basic := { a.basic with nonce := a.basic.nonce + 1 } })

/-! ## Top-level entry points and the journal builder -/

/-- `transact_call` (lines 224–257): record the intrinsic call cost on the
current frame, bump the caller's nonce, then run `call_inner` on the target
with the value transfer and `take_l64 = take_stipend = is_static = false`. -/
def transact_call (B : Backend) (C : EvmConfig) (pre : Precompile) (O : RunOracle)
    (ex : StackExecutor) (caller address value : Nat) (data : List Nat)
    (gas_limit : Nat) : StackExecutor × ExitReason × List Nat :=
  match ex.substates with
  | [] => (ex, .Fatal, [])
  | top :: rest =>
    match top.gasometer.record_transaction (call_transaction_cost data) with
    | .error e => (ex, .Error e, [])
    | .ok g1 =>
      let subs1 := { top with gasometer := g1 } :: rest
      let subs2 := account_mut_update B subs1 caller
        (fun a => { a with basic := { a.basic with nonce := a.basic.nonce + 1 } })
      let context : Context := ⟨address, caller, value⟩
      call_inner B C pre O ⟨subs2, ex.call_graph⟩ address
        (some ⟨caller, address, value⟩) data (some gas_limit) false false false context

/-- `deconstruct` (lines 282–316): only legal on the outermost frame
(`assert_eq!(substates.len(), 1)`, modelled as `none` otherwise).  Emits a
`Modify` for every state entry whose address is not deleted, in map
iteration order, then a `Delete` for every deleted address; returns the
applies together with the frame's logs and the internal-call trace. -/
def deconstruct (ex : StackExecutor) :
    Option (List Apply × List Log × List InternalTransaction) :=
  match ex.substates with
  | [current] =>
    let modifies :=
      (current.state.filter (fun kv => !(current.deleted.contains kv.1))).map
        (fun kv => Apply.Modify kv.1 kv.2.basic kv.2.code kv.2.storage kv.2.reset_storage)
    let deletes := current.deleted.map Apply.Delete
    some (modifies ++ deletes, current.logs, ex.call_graph)
  | _ => none

/-- The address a journal entry refers to. -/
def Apply.address : Apply → Nat
  | .Modify a _ _ _ _ => a
  | .Delete a => a

/-- Whether a journal entry is a `Modify`. -/
def Apply.isModify : Apply → Bool
  | .Modify _ _ _ _ _ => true
  | .Delete _ => false

/-- A fresh executor (`StackExecutor::new`, lines 59–90): a single
outermost frame with the full gas limit, empty overlays, non-static,
`depth = none`, and an empty call trace. -/
def executor_new (gas_limit : Nat) : StackExecutor :=
  ⟨[⟨Gasometer.new gas_limit, [], [], [], false, none⟩], []⟩

/-! ## Concrete instances used by witnesses and counterexamples -/

/-- A trivial backend: every account empty. -/
def B0 : Backend :=
  ⟨fun _ => ⟨0, 0⟩, fun _ => [], fun _ _ => 0⟩

/-- A backend where address 9 has code `[1, 2, 3]` and address 5 has
balance 10. -/
def B4 : Backend :=
  ⟨fun a => if a = 5 then ⟨10, 0⟩ else ⟨0, 0⟩,
   fun a => if a = 9 then [1, 2, 3] else [],
   fun _ _ => 0⟩

/-- A backend where address 2 has balance 1. -/
def B10 : Backend :=
  ⟨fun a => if a = 2 then ⟨1, 4⟩ else ⟨0, 0⟩, fun _ => [], fun _ _ => 0⟩

/-- A mainline-flavoured configuration. -/
def C0 : EvmConfig :=
  ⟨1024, true, 2300, some 24576, false, false⟩

/-- A precompile that answers every call with an immediate success. -/
def pre0 : Precompile :=
  fun _ _ _ => some (.ok (.Stopped, [], 0))

/-- An interpreter oracle that stops immediately without touching state. -/
def O0 : RunOracle :=
  fun _ _ _ ex => (ex, .Succeed .Stopped, [])

/-- A degenerate hash oracle (address derivation is irrelevant to the
collision theorems, which use `CreateScheme.Fixed`). -/
def H0 : HashOracle :=
  ⟨fun _ _ => 0, fun _ _ _ => 0, fun _ => 0⟩

/-! ## Lemmas on the map and set model -/

theorem alLookup_insert_self (k : Nat) (v : α) (l : List (Nat × α)) :
    alLookup k (alInsert k v l) = some v := by
  induction l with
  | nil => simp [alInsert, alLookup]
  | cons hd tl ih =>
    obtain ⟨k', v'⟩ := hd
    by_cases h1 : k < k'
    · simp [alInsert, alLookup, h1]
    · by_cases h2 : k = k'
      · simp [alInsert, alLookup, h1, h2]
      · simp [alInsert, alLookup, h1, h2, ih]

theorem alLookup_insert_ne (a k : Nat) (v : α) (l : List (Nat × α)) (h : a ≠ k) :
    alLookup a (alInsert k v l) = alLookup a l := by
  induction l with
  | nil => simp [alInsert, alLookup, h]
  | cons hd tl ih =>
    obtain ⟨k', v'⟩ := hd
    by_cases h1 : k < k'
    · simp [alInsert, alLookup, h1, h]
    · by_cases h2 : k = k'
      · subst h2
        simp [alInsert, alLookup, h1, h]
      · simp only [alInsert, if_neg h1, if_neg h2, alLookup]
        by_cases h3 : a = k'
        · simp [h3]
        · simp [h3, ih]

theorem alLookup_eq_none_of_not_mem (a : Nat) (l : List (Nat × α))
    (h : a ∉ l.map Prod.fst) : alLookup a l = none := by
  induction l with
  | nil => rfl
  | cons hd tl ih =>
    obtain ⟨k', v'⟩ := hd
    simp only [List.map_cons, List.mem_cons] at h
    push_neg at h
    simp [alLookup, h.1, ih h.2]

theorem alAppend_cons (p : List (Nat × α)) (kv : Nat × α) (rest : List (Nat × α)) :
    alAppend p (kv :: rest) = alAppend (alInsert kv.1 kv.2 p) rest := rfl

theorem alLookup_alAppend (a : Nat) (p c : List (Nat × α))
    (h : (c.map Prod.fst).Nodup) :
    alLookup a (alAppend p c) = optOr (alLookup a c) (alLookup a p) := by
  induction c generalizing p with
  | nil => simp [alAppend, alLookup, optOr]
  | cons kv rest ih =>
    obtain ⟨k, v⟩ := kv
    simp only [List.map_cons, List.nodup_cons] at h
    rw [alAppend_cons, ih _ h.2]
    by_cases hak : a = k
    · subst hak
      have hrest : alLookup a rest = none :=
        alLookup_eq_none_of_not_mem _ _ h.1
      rw [hrest, alLookup_insert_self]
      simp [alLookup, optOr]
    · rw [alLookup_insert_ne _ _ _ _ hak]
      cases h' : alLookup a rest <;> simp [alLookup, hak, h', optOr]

theorem mem_slInsert (a k : Nat) (s : List Nat) :
    a ∈ slInsert k s ↔ a = k ∨ a ∈ s := by
  induction s with
  | nil => simp [slInsert]
  | cons x rest ih =>
    by_cases h1 : k < x
    · simp only [slInsert, if_pos h1, List.mem_cons]
    · by_cases h2 : k = x
      · subst h2
        simp only [slInsert, if_neg h1]
        simp only [if_true, eq_self_iff_true, ite_true, List.mem_cons]
        tauto
      · simp only [slInsert, if_neg h1, if_neg h2, List.mem_cons, ih]
        tauto

theorem mem_slInsert_self (k : Nat) (s : List Nat) : k ∈ slInsert k s := by
  rw [mem_slInsert]
  exact Or.inl rfl

theorem slAppend_cons (p : List Nat) (x : Nat) (rest : List Nat) :
    slAppend p (x :: rest) = slAppend (slInsert x p) rest := rfl

theorem mem_slAppend (a : Nat) (p c : List Nat) :
    a ∈ slAppend p c ↔ a ∈ p ∨ a ∈ c := by
  induction c generalizing p with
  | nil => simp [slAppend]
  | cons x rest ih =>
    rw [slAppend_cons, ih, mem_slInsert]
    simp only [List.mem_cons]
    tauto

/-! ## Lemmas on account lookup and mutation -/

theorem account_lookup_cons (s : StackSubstate) (rest : Substates) (a : Nat) :
    account_lookup (s :: rest) a =
      (match alLookup a s.state with
       | some acct => some acct
       | none => account_lookup rest a) := rfl

theorem balanceOf_eq_view (B : Backend) (subs : Substates) (a : Nat) :
    balanceOf B subs a = (viewAccount B subs a).basic.balance := by
  cases h : account_lookup subs a <;>
    simp [balanceOf, viewAccount, default_account, h]

theorem nonceOf_eq_view (B : Backend) (subs : Substates) (a : Nat) :
    nonceOf B subs a = (viewAccount B subs a).basic.nonce := by
  cases h : account_lookup subs a <;>
    simp [nonceOf, viewAccount, default_account, h]

theorem account_lookup_touch_ne (B : Backend) (subs : Substates) (x a : Nat)
    (h : a ≠ x) : account_lookup (touch B subs x) a = account_lookup subs a := by
  cases subs with
  | nil => rfl
  | cons top rest =>
    by_cases hp : (alLookup x top.state).isSome
    · simp [touch, hp]
    · simp only [touch, if_neg hp]
      rw [account_lookup_cons, account_lookup_cons]
      simp only
      rw [alLookup_insert_ne _ _ _ _ h]

theorem account_lookup_touch_self (B : Backend) (subs : Substates) (x : Nat)
    (h : subs ≠ []) :
    account_lookup (touch B subs x) x = some (viewAccount B subs x) := by
  cases subs with
  | nil => exact absurd rfl h
  | cons top rest =>
    by_cases hp : (alLookup x top.state).isSome
    · obtain ⟨acct, hacct⟩ := Option.isSome_iff_exists.mp hp
      simp [touch, hp, account_lookup_cons, hacct, viewAccount]
    · simp only [touch, if_neg hp]
      rw [account_lookup_cons]
      simp only
      rw [alLookup_insert_self]

theorem topLookup_touch_self (B : Backend) (subs : Substates) (x : Nat)
    (h : subs ≠ []) :
    topLookup (touch B subs x) x = some (viewAccount B subs x) := by
  cases subs with
  | nil => exact absurd rfl h
  | cons top rest =>
    by_cases hp : (alLookup x top.state).isSome
    · obtain ⟨acct, hacct⟩ := Option.isSome_iff_exists.mp hp
      simp [touch, hp, topLookup, hacct, viewAccount, account_lookup_cons]
    · simp only [touch, if_neg hp, topLookup]
      rw [alLookup_insert_self]

theorem account_lookup_setTop_self (top : StackSubstate) (rest : Substates)
    (x : Nat) (acct : StackAccount) :
    account_lookup (setTopAccount (top :: rest) x acct) x = some acct := by
  simp [setTopAccount, account_lookup_cons, alLookup_insert_self]

theorem account_lookup_setTop_ne (top : StackSubstate) (rest : Substates)
    (x a : Nat) (acct : StackAccount) (h : a ≠ x) :
    account_lookup (setTopAccount (top :: rest) x acct) a =
      account_lookup (top :: rest) a := by
  simp only [setTopAccount]
  rw [account_lookup_cons, account_lookup_cons]
  simp only
  rw [alLookup_insert_ne _ _ _ _ h]

theorem account_lookup_update_self (B : Backend) (subs : Substates) (x : Nat)
    (f : StackAccount → StackAccount) (h : subs ≠ []) :
    account_lookup (account_mut_update B subs x f) x =
      some (f (viewAccount B subs x)) := by
  cases subs with
  | nil => exact absurd rfl h
  | cons top rest =>
    simp only [account_mut_update]
    rw [topLookup_touch_self _ _ _ h]
    simp only
    cases ht : touch B (top :: rest) x with
    | nil => simp only [touch] at ht; split at ht <;> simp_all
    | cons t r => exact account_lookup_setTop_self t r x _

theorem account_lookup_update_ne (B : Backend) (subs : Substates) (x a : Nat)
    (f : StackAccount → StackAccount) (h : a ≠ x) :
    account_lookup (account_mut_update B subs x f) a = account_lookup subs a := by
  cases subs with
  | nil => rfl
  | cons top rest =>
    simp only [account_mut_update]
    rw [topLookup_touch_self _ _ _ (by simp)]
    simp only
    have hne := account_lookup_touch_ne B (top :: rest) x a h
    cases ht : touch B (top :: rest) x with
    | nil => simp only [touch] at ht; split at ht <;> simp_all
    | cons t r =>
      rw [ht] at hne
      rw [account_lookup_setTop_ne t r x a _ h, hne]

/-! ## Balance, nonce, and mutation lemmas -/

theorem touch_cons (B : Backend) (top : StackSubstate) (rest : Substates)
    (x : Nat) : ∃ st, touch B (top :: rest) x = { top with state := st } :: rest := by
  by_cases hp : (alLookup x top.state).isSome
  · exact ⟨top.state, by simp [touch, hp]⟩
  · exact ⟨alInsert x (viewAccount B (top :: rest) x) top.state, by simp [touch, hp]⟩

theorem account_mut_update_cons (B : Backend) (top : StackSubstate)
    (rest : Substates) (x : Nat) (f : StackAccount → StackAccount) :
    ∃ st, account_mut_update B (top :: rest) x f = { top with state := st } :: rest := by
  obtain ⟨st0, hst0⟩ := touch_cons B top rest x
  simp only [account_mut_update, hst0]
  cases h : topLookup ({ top with state := st0 } :: rest) x with
  | none => exact ⟨st0, rfl⟩
  | some acct => exact ⟨alInsert x (f acct) st0, rfl⟩

theorem balanceOf_congr (B : Backend) (subs subs' : Substates) (a : Nat)
    (h : account_lookup subs a = account_lookup subs' a) :
    balanceOf B subs a = balanceOf B subs' a := by
  unfold balanceOf
  rw [h]

theorem nonceOf_congr (B : Backend) (subs subs' : Substates) (a : Nat)
    (h : account_lookup subs a = account_lookup subs' a) :
    nonceOf B subs a = nonceOf B subs' a := by
  unfold nonceOf
  rw [h]

theorem balanceOf_touch (B : Backend) (subs : Substates) (x a : Nat) :
    balanceOf B (touch B subs x) a = balanceOf B subs a := by
  cases subs with
  | nil => rfl
  | cons top rest =>
    by_cases hax : a = x
    · subst hax
      have h1 : balanceOf B (touch B (top :: rest) a) a
          = (viewAccount B (top :: rest) a).basic.balance := by
        unfold balanceOf
        rw [account_lookup_touch_self B _ _ (by simp)]
      rw [h1, ← balanceOf_eq_view]
    · exact balanceOf_congr B _ _ a (account_lookup_touch_ne B _ x a hax)

theorem balanceOf_setTop_self (B : Backend) (top : StackSubstate) (rest : Substates)
    (x : Nat) (acct : StackAccount) :
    balanceOf B (setTopAccount (top :: rest) x acct) x = acct.basic.balance := by
  unfold balanceOf
  rw [account_lookup_setTop_self]

theorem balanceOf_setTop_ne (B : Backend) (top : StackSubstate) (rest : Substates)
    (x a : Nat) (acct : StackAccount) (h : a ≠ x) :
    balanceOf B (setTopAccount (top :: rest) x acct) a = balanceOf B (top :: rest) a :=
  balanceOf_congr B _ _ a (account_lookup_setTop_ne top rest x a acct h)

theorem balanceOf_deposit_self (B : Backend) (subs : Substates) (dst value : Nat)
    (h : subs ≠ []) :
    balanceOf B (deposit B subs dst value) dst = balanceOf B subs dst + value := by
  have hl := account_lookup_update_self B subs dst
    (fun target => { target with basic :=
      { target.basic with balance := target.basic.balance + value } }) h
  calc balanceOf B (deposit B subs dst value) dst
      = (viewAccount B subs dst).basic.balance + value := by
        unfold deposit balanceOf
        rw [hl]
    _ = balanceOf B subs dst + value := by rw [← balanceOf_eq_view]

theorem balanceOf_deposit_ne (B : Backend) (subs : Substates) (dst value a : Nat)
    (h : a ≠ dst) :
    balanceOf B (deposit B subs dst value) a = balanceOf B subs a := by
  unfold deposit
  exact balanceOf_congr B _ _ a (account_lookup_update_ne B subs dst a _ h)

theorem topLookup_setTop_self (top : StackSubstate) (rest : Substates)
    (x : Nat) (acct : StackAccount) :
    topLookup (setTopAccount (top :: rest) x acct) x = some acct := by
  simp [setTopAccount, topLookup, alLookup_insert_self]

theorem topLookup_setTop_ne (top : StackSubstate) (rest : Substates)
    (x a : Nat) (acct : StackAccount) (h : a ≠ x) :
    topLookup (setTopAccount (top :: rest) x acct) a = topLookup (top :: rest) a := by
  simp only [setTopAccount, topLookup]
  rw [alLookup_insert_ne _ _ _ _ h]

theorem topLookup_touch_ne (B : Backend) (subs : Substates) (x a : Nat)
    (h : a ≠ x) : topLookup (touch B subs x) a = topLookup subs a := by
  cases subs with
  | nil => rfl
  | cons top rest =>
    by_cases hp : (alLookup x top.state).isSome
    · simp [touch, hp]
    · simp only [touch, if_neg hp, topLookup]
      rw [alLookup_insert_ne _ _ _ _ h]

theorem topLookup_update_self (B : Backend) (subs : Substates) (x : Nat)
    (f : StackAccount → StackAccount) (h : subs ≠ []) :
    topLookup (account_mut_update B subs x f) x = some (f (viewAccount B subs x)) := by
  cases subs with
  | nil => exact absurd rfl h
  | cons top rest =>
    simp only [account_mut_update]
    rw [topLookup_touch_self _ _ _ h]
    simp only
    obtain ⟨st0, hst0⟩ := touch_cons B top rest x
    rw [hst0]
    exact topLookup_setTop_self _ _ _ _

theorem topLookup_update_ne (B : Backend) (subs : Substates) (x a : Nat)
    (f : StackAccount → StackAccount) (h : a ≠ x) :
    topLookup (account_mut_update B subs x f) a = topLookup subs a := by
  cases subs with
  | nil => rfl
  | cons top rest =>
    simp only [account_mut_update]
    rw [topLookup_touch_self _ _ _ (by simp)]
    simp only
    obtain ⟨st0, hst0⟩ := touch_cons B top rest x
    have htne := topLookup_touch_ne B (top :: rest) x a h
    rw [hst0] at htne ⊢
    rw [topLookup_setTop_ne _ _ _ _ _ h, htne]

/-! ## Withdraw and transfer equations -/

theorem withdraw_fail_eq (B : Backend) (subs : Substates) (src value : Nat)
    (h : subs ≠ []) (hlt : balanceOf B subs src < value) :
    withdraw B subs src value = (touch B subs src, some .OutOfFund) := by
  have hv : (viewAccount B subs src).basic.balance < value := by
    rw [← balanceOf_eq_view]
    exact hlt
  simp only [withdraw]
  rw [topLookup_touch_self _ _ _ h]
  simp [hv]

theorem withdraw_ok_eq (B : Backend) (subs : Substates) (src value : Nat)
    (h : subs ≠ []) (hge : value ≤ balanceOf B subs src) :
    withdraw B subs src value =
      (setTopAccount (touch B subs src) src
        { viewAccount B subs src with basic := { (viewAccount B subs src).basic with
            balance := (viewAccount B subs src).basic.balance - value } }, none) := by
  have hv : ¬ (viewAccount B subs src).basic.balance < value := by
    rw [← balanceOf_eq_view]
    exact Nat.not_lt.2 hge
  simp only [withdraw]
  rw [topLookup_touch_self _ _ _ h]
  simp [hv]

theorem viewAccount_cons_empty (B : Backend) (c : StackSubstate) (subs : Substates)
    (a : Nat) (hc : c.state = []) :
    viewAccount B (c :: subs) a = viewAccount B subs a := by
  unfold viewAccount
  rw [account_lookup_cons, hc]
  rfl

theorem viewAccount_update_ne (B : Backend) (subs : Substates) (x a : Nat)
    (f : StackAccount → StackAccount) (h : a ≠ x) :
    viewAccount B (account_mut_update B subs x f) a = viewAccount B subs a := by
  unfold viewAccount
  rw [account_lookup_update_ne B subs x a f h]

theorem nonceOf_cons_insert_self (B : Backend) (c : StackSubstate) (subs : Substates)
    (a : Nat) (acct : StackAccount) (st : List (Nat × StackAccount))
    (hc : c.state = alInsert a acct st) :
    nonceOf B (c :: subs) a = acct.basic.nonce := by
  unfold nonceOf
  rw [account_lookup_cons, hc, alLookup_insert_self]

theorem viewAccount_cons_insert_self (B : Backend) (c : StackSubstate) (subs : Substates)
    (a : Nat) (acct : StackAccount) (st : List (Nat × StackAccount))
    (hc : c.state = alInsert a acct st) :
    viewAccount B (c :: subs) a = acct := by
  unfold viewAccount
  rw [account_lookup_cons, hc, alLookup_insert_self]
  rfl

theorem enter_substate_eq (subs : Substates) (gl : Nat) (st : Bool) (h : subs ≠ []) :
    enter_substate subs gl st =
      ⟨Gasometer.new gl, [], [], [], st || topIsStatic subs,
        match topDepth subs with
        | none => some 0
        | some n => some (n + 1)⟩ :: subs := by
  cases subs with
  | nil => exact absurd rfl h
  | cons p r => rfl

theorem viewAccount_cons_mk_empty (B : Backend) (g : Gasometer) (del : List Nat)
    (lg : List Log) (s : Bool) (dep : Option Nat) (subs : Substates) (a : Nat) :
    viewAccount B (⟨g, [], del, lg, s, dep⟩ :: subs) a = viewAccount B subs a := rfl

theorem viewAccount_gas_irrel (B : Backend) (top : StackSubstate) (rest : Substates)
    (g : Gasometer) (a : Nat) :
    viewAccount B ({ top with gasometer := g } :: rest) a
      = viewAccount B (top :: rest) a := rfl

theorem nonceOf_cons_mk_insert (B : Backend) (g : Gasometer) (del : List Nat)
    (lg : List Log) (s : Bool) (dep : Option Nat) (subs : Substates)
    (a : Nat) (acct : StackAccount) (st : List (Nat × StackAccount)) :
    nonceOf B (⟨g, alInsert a acct st, del, lg, s, dep⟩ :: subs) a
      = acct.basic.nonce := by
  unfold nonceOf
  rw [account_lookup_cons]
  simp only
  rw [alLookup_insert_self]

theorem viewAccount_cons_mk_insert (B : Backend) (g : Gasometer) (del : List Nat)
    (lg : List Log) (s : Bool) (dep : Option Nat) (subs : Substates)
    (a : Nat) (acct : StackAccount) (st : List (Nat × StackAccount)) :
    viewAccount B (⟨g, alInsert a acct st, del, lg, s, dep⟩ :: subs) a = acct := by
  unfold viewAccount
  rw [account_lookup_cons]
  simp only
  rw [alLookup_insert_self]
  rfl

theorem exit_failed_mk (g : Gasometer) (st : List (Nat × StackAccount))
    (del : List Nat) (s : Bool) (dep : Option Nat) (p : StackSubstate)
    (r : Substates) :
    exit_substate (⟨g, st, del, [], s, dep⟩ :: p :: r) .Failed = p :: r := by
  simp [exit_substate]

theorem exit_failed_update_mk (B : Backend) (g : Gasometer)
    (st : List (Nat × StackAccount)) (del : List Nat) (s : Bool) (dep : Option Nat)
    (p : StackSubstate) (r : Substates) (x : Nat) (f : StackAccount → StackAccount) :
    exit_substate (account_mut_update B (⟨g, st, del, [], s, dep⟩ :: p :: r) x f)
      .Failed = p :: r := by
  obtain ⟨st', hst'⟩ := account_mut_update_cons B ⟨g, st, del, [], s, dep⟩ (p :: r) x f
  rw [hst']
  simp [exit_substate]

theorem nonceOf_cons_mk_single (B : Backend) (g : Gasometer) (del : List Nat)
    (lg : List Log) (s : Bool) (dep : Option Nat) (subs : Substates)
    (a : Nat) (acct : StackAccount) :
    nonceOf B (⟨g, [(a, acct)], del, lg, s, dep⟩ :: subs) a = acct.basic.nonce := by
  unfold nonceOf
  rw [account_lookup_cons]
  simp [alLookup]

theorem viewAccount_cons_mk_single (B : Backend) (g : Gasometer) (del : List Nat)
    (lg : List Log) (s : Bool) (dep : Option Nat) (subs : Substates)
    (a : Nat) (acct : StackAccount) :
    viewAccount B (⟨g, [(a, acct)], del, lg, s, dep⟩ :: subs) a = acct := by
  unfold viewAccount
  rw [account_lookup_cons]
  simp [alLookup]

theorem nonceOf_update_self_basic (B : Backend) (subs : Substates) (x : Nat)
    (f : StackAccount → StackAccount) (h : subs ≠ [])
    (hbasic : ∀ a, (f a).basic = a.basic) :
    nonceOf B (account_mut_update B subs x f) x = nonceOf B subs x := by
  have h2 : nonceOf B (account_mut_update B subs x f) x
      = (f (viewAccount B subs x)).basic.nonce := by
    unfold nonceOf
    rw [account_lookup_update_self B subs x f h]
  rw [h2, hbasic, ← nonceOf_eq_view]

theorem exit_failed_mk_any (g : Gasometer) (st : List (Nat × StackAccount))
    (del : List Nat) (s : Bool) (dep : Option Nat) (subs : Substates)
    (h : subs ≠ []) :
    exit_substate (⟨g, st, del, [], s, dep⟩ :: subs) .Failed = subs := by
  cases subs with
  | nil => exact absurd rfl h
  | cons p r => simp [exit_substate]

theorem exit_failed_update_mk2 (B : Backend) (g : Gasometer)
    (st : List (Nat × StackAccount)) (del : List Nat) (s : Bool) (dep : Option Nat)
    (subs : Substates) (x : Nat) (f : StackAccount → StackAccount)
    (h : subs ≠ []) :
    exit_substate (account_mut_update B (⟨g, st, del, [], s, dep⟩ :: subs) x f)
      .Failed = subs := by
  cases subs with
  | nil => exact absurd rfl h
  | cons p r =>
    obtain ⟨st', hst'⟩ := account_mut_update_cons B ⟨g, st, del, [], s, dep⟩ (p :: r) x f
    rw [hst']
    simp [exit_substate]

theorem exit_reverted_touch_mk (B : Backend) (g : Gasometer)
    (st : List (Nat × StackAccount)) (del : List Nat) (s : Bool) (dep : Option Nat)
    (p : StackSubstate) (r : Substates) (x : Nat) :
    exit_substate (touch B (⟨g, st, del, [], s, dep⟩ :: p :: r) x) .Reverted
      = { p with gasometer := p.gasometer.record_stipend g.gas } :: r := by
  obtain ⟨st', hst'⟩ := touch_cons B ⟨g, st, del, [], s, dep⟩ (p :: r) x
  rw [hst']
  simp [exit_substate]

/-! ## Gas and shape lemmas -/

theorem l64_le (a : Nat) : l64 a ≤ a := Nat.sub_le _ _

theorem call_gas_limit_le (C : EvmConfig) (tl : Bool) (a : Nat)
    (tg : Option Nat) : call_gas_limit C tl a tg ≤ a := by
  unfold call_gas_limit
  split
  · exact le_trans (min_le_right _ _) (l64_le a)
  · exact min_le_right _ _

theorem create_gas_limit_le (C : EvmConfig) (tl : Bool) (a : Nat)
    (tg : Option Nat) : create_gas_limit C tl a tg ≤ a := by
  unfold create_gas_limit
  split
  · exact le_trans (min_le_left _ _) (l64_le a)
  · exact min_le_left _ _

theorem gas_def (g : Gasometer) : g.gas = g.remaining := rfl

theorem new_def (l : Nat) : Gasometer.new l = ⟨l, l, 0⟩ := rfl

theorem record_cost_of_le (g : Gasometer) (c : Nat) (h : c ≤ g.remaining) :
    g.record_cost c = .ok { g with remaining := g.remaining - c } := by
  simp [Gasometer.record_cost, Nat.not_lt.2 h]

theorem topDepth_touch (B : Backend) (subs : Substates) (x : Nat) :
    topDepth (touch B subs x) = topDepth subs := by
  cases subs with
  | nil => rfl
  | cons top rest =>
    by_cases hp : (alLookup x top.state).isSome <;> simp [touch, hp, topDepth]

theorem account_lookup_gas_irrel (top : StackSubstate) (rest : Substates)
    (g : Gasometer) (a : Nat) :
    account_lookup ({ top with gasometer := g } :: rest) a =
      account_lookup (top :: rest) a := rfl

theorem create_address_gas_irrel (H : HashOracle) (B : Backend)
    (top : StackSubstate) (rest : Substates) (g : Gasometer) (scheme : CreateScheme) :
    create_address H B ({ top with gasometer := g } :: rest) scheme =
      create_address H B (top :: rest) scheme := by
  cases scheme <;> rfl

/-! ## Claim theorems -/

/-- C1.  On every child-frame exit: with kind `Succeeded` the child's
`deleted` set is unioned into the parent's and each child state entry
replaces the parent's entry for the same address wholesale (a lookup that
hits the child returns the child's whole account, untouched addresses keep
the parent's entry); with kind `Reverted` or `Failed` the parent's state
map and deleted set are left exactly as they were. -/
theorem exit_substate_merge_semantics (child parent : StackSubstate)
    (rest : Substates) (hnodup : (child.state.map Prod.fst).Nodup) :
    (∀ a, alLookup a (topState (exit_substate (child :: parent :: rest) .Succeeded)) =
       optOr (alLookup a child.state) (alLookup a parent.state)) ∧
    (∀ a, a ∈ topDeleted (exit_substate (child :: parent :: rest) .Succeeded) ↔
       a ∈ parent.deleted ∨ a ∈ child.deleted) ∧
    topState (exit_substate (child :: parent :: rest) .Reverted) = parent.state ∧
    topDeleted (exit_substate (child :: parent :: rest) .Reverted) = parent.deleted ∧
    topState (exit_substate (child :: parent :: rest) .Failed) = parent.state ∧
    topDeleted (exit_substate (child :: parent :: rest) .Failed) = parent.deleted := by
  refine ⟨?_, ?_, rfl, rfl, rfl, rfl⟩
  · intro a
    simp only [exit_substate, topState]
    exact alLookup_alAppend a parent.state child.state hnodup
  · intro a
    simp only [exit_substate, topDeleted]
    exact mem_slAppend a _ _

/-- C1 witness: a concrete merge where the child overwrites address 1
wholesale, keeps the parent's address 2, and the deleted sets union. -/
theorem exit_substate_merge_semantics_witness :
    ((⟨Gasometer.new 5, [(1, ⟨⟨7, 7⟩, some [9], [(4, 4)], true⟩)], [3], [], false, some 0⟩ :
        StackSubstate).state.map Prod.fst).Nodup ∧
    alLookup 1 (topState (exit_substate
      [⟨Gasometer.new 5, [(1, ⟨⟨7, 7⟩, some [9], [(4, 4)], true⟩)], [3], [], false, some 0⟩,
       ⟨Gasometer.new 9, [(1, ⟨⟨1, 1⟩, none, [], false⟩), (2, ⟨⟨2, 2⟩, none, [], false⟩)],
        [8], [], false, none⟩] .Succeeded)) = some ⟨⟨7, 7⟩, some [9], [(4, 4)], true⟩ := by
  constructor
  · decide
  · have h := (exit_substate_merge_semantics
      ⟨Gasometer.new 5, [(1, ⟨⟨7, 7⟩, some [9], [(4, 4)], true⟩)], [3], [], false, some 0⟩
      ⟨Gasometer.new 9, [(1, ⟨⟨1, 1⟩, none, [], false⟩), (2, ⟨⟨2, 2⟩, none, [], false⟩)],
       [8], [], false, none⟩ [] (by decide)).1 1
    exact h.trans (by decide)

/-- C5.  Whatever the exit kind — `Succeeded`, `Reverted` or `Failed` —
the child's logs are appended (in order) to the parent frame's log
sequence, and the final journal's log output is exactly the outermost
frame's log sequence, so logs of reverted and failed sub-calls survive. -/
theorem exit_substate_logs_always_appended (kind : StackExitKind)
    (child parent : StackSubstate) (rest : Substates) :
    topLogs (exit_substate (child :: parent :: rest) kind) =
      parent.logs ++ child.logs ∧
    ∀ (s : StackSubstate) (g : List InternalTransaction),
      ∃ applies, deconstruct ⟨[s], g⟩ = some (applies, s.logs, g) := by
  constructor
  · cases kind <;> rfl
  · intro s g
    exact ⟨_, rfl⟩

/-- C6.  Under `take_l64 = true` and `config.call_l64_after_gas = true`,
both the call and the create engine compute the child gas limit as
`min` of the 63/64-reduced remaining gas and the requested target (which
defaults to that same reduced value); hence the child's gas limit, before
any stipend, never exceeds `after_gas - after_gas / 64`. -/
theorem nested_gas_limit_l64 (C : EvmConfig) (hC : C.call_l64_after_gas = true)
    (after_gas : Nat) (target_gas : Option Nat) :
    call_gas_limit C true after_gas target_gas =
      min (target_gas.getD (l64 after_gas)) (l64 after_gas) ∧
    create_gas_limit C true after_gas target_gas =
      min (l64 after_gas) (target_gas.getD (l64 after_gas)) ∧
    call_gas_limit C true after_gas target_gas ≤ after_gas - after_gas / 64 ∧
    create_gas_limit C true after_gas target_gas ≤ after_gas - after_gas / 64 := by
  refine ⟨by simp [call_gas_limit, hC], by simp [create_gas_limit, hC], ?_, ?_⟩
  · simp only [call_gas_limit, hC, Bool.and_self, if_pos]
    exact min_le_right _ _
  · simp only [create_gas_limit, hC, Bool.and_self, if_pos]
    exact min_le_left _ _

/-- C6 witness: with `after_gas = 64` the child limit is at most 63, with
`after_gas = 1` at most 1 (instantiated with an unrestricted target). -/
theorem nested_gas_limit_l64_witness :
    C0.call_l64_after_gas = true ∧
    call_gas_limit C0 true 64 none ≤ 63 ∧
    create_gas_limit C0 true 64 none ≤ 63 ∧
    call_gas_limit C0 true 1 none ≤ 1 ∧
    create_gas_limit C0 true 1 none ≤ 1 := by
  have h64 := nested_gas_limit_l64 C0 (by decide) 64 none
  have h1 := nested_gas_limit_l64 C0 (by decide) 1 none
  exact ⟨by decide, h64.2.2.1, h64.2.2.2, h1.2.2.1, h1.2.2.2⟩

/-- C9.  The host mutation callbacks `set_storage` and `log` return `Ok`
for every input and every frame — they have no error branch — and the
storage write does land: reading the slot back through the `storage`
handler yields the written value. -/
theorem mutation_callbacks_always_ok (B : Backend) (subs : Substates)
    (a i v addr : Nat) (topics : List Nat) (data : List Nat) :
    (set_storage B subs a i v).2 = .ok () ∧
    (log_append subs addr topics data).2 = .ok () ∧
    (subs ≠ [] → storageOf B (set_storage B subs a i v).1 a i = v) := by
  refine ⟨rfl, ?_, ?_⟩
  · cases subs <;> rfl
  · intro h
    simp only [set_storage, storageOf]
    rw [account_lookup_update_self B subs a _ h]
    simp only
    rw [alLookup_insert_self]

/-- C9 witness: a concrete storage write through a static frame. -/
theorem mutation_callbacks_always_ok_witness :
    (set_storage B0 [⟨Gasometer.new 5, [], [], [], true, some 0⟩] 3 1 2).2 = .ok () ∧
    storageOf B0 (set_storage B0 [⟨Gasometer.new 5, [], [], [], true, some 0⟩] 3 1 2).1 3 1 = 2 := by
  have h := mutation_callbacks_always_ok B0 [⟨Gasometer.new 5, [], [], [], true, some 0⟩]
    3 1 2 0 [] []
  exact ⟨h.1, h.2.2 (by decide)⟩

/-- C2 (amended).  `call_inner` appends an `InternalTransaction` only on
the interpreter path: when the pre-stages complete the call early (failed
`record_cost`, `CallTooDeep`, failed value transfer, or a precompile
answer) the trace is unchanged; when the interpreter runs, exactly one
entry `{ parent = context.caller, node = context.address, gas_used =
gas_limit - remaining }` is appended after every entry produced during the
child's own execution (post-order). -/
theorem call_inner_trace_shape (B : Backend) (C : EvmConfig) (pre : Precompile)
    (O : RunOracle) (ex : StackExecutor) (code_address : Nat)
    (transfer? : Option TransferT) (input : List Nat) (target_gas : Option Nat)
    (is_static take_l64 take_stipend : Bool) (context : Context) :
    (∀ subs r v,
       call_inner_pre B C pre ex.substates code_address transfer? input target_gas
           is_static take_l64 take_stipend context = .error (subs, r, v) →
       (call_inner B C pre O ex code_address transfer? input target_gas is_static
           take_l64 take_stipend context).1.call_graph = ex.call_graph) ∧
    (∀ subs1 gl code,
       call_inner_pre B C pre ex.substates code_address transfer? input target_gas
           is_static take_l64 take_stipend context = .ok (subs1, gl, code) →
       (call_inner B C pre O ex code_address transfer? input target_gas is_static
           take_l64 take_stipend context).1.call_graph =
         (O code input context ⟨subs1, ex.call_graph⟩).1.call_graph ++
           [⟨context.caller, context.address,
             gl - topGas (O code input context ⟨subs1, ex.call_graph⟩).1.substates,
             none, none⟩]) := by
  constructor
  · intro subs r v h
    simp only [call_inner, h]
  · intro subs1 gl code h
    simp only [call_inner, h]
    cases hr : (O code input context ⟨subs1, ex.call_graph⟩).2.1 <;> simp [hr, topGas]

/-- C2 witness: a call that reaches the interpreter appends exactly one
trace entry with `parent = context.caller` and `node = context.address`. -/
theorem call_inner_trace_shape_witness :
    (call_inner B0 C0 no_precompile O0 (executor_new 0) 1 none [] (some 0) false false
        false ⟨1, 3, 0⟩).1.call_graph = [⟨3, 1, 0, none, none⟩] := by
  have h := (call_inner_trace_shape B0 C0 no_precompile O0 (executor_new 0) 1 none []
      (some 0) false false false ⟨1, 3, 0⟩).2
    [⟨⟨0, 0, 0⟩, [(1, ⟨⟨0, 0⟩, none, [], false⟩)], [], [], false, some 0⟩,
     ⟨⟨0, 0, 0⟩, [], [], [], false, none⟩] 0 [] rfl
  exact h.trans (by decide)

/-- C2 counterexample: a sub-call that completes successfully through the
precompile path appends no `InternalTransaction` at all — refuting "every
completed sub-call (including calls handled by a precompile) appends
exactly one". -/
theorem call_inner_precompile_no_trace :
    (call_inner B0 C0 pre0 O0 (executor_new 1000) 7 none [] (some 100) false false
        false ⟨7, 3, 0⟩).2.1 = ExitReason.Succeed .Stopped ∧
    (call_inner B0 C0 pre0 O0 (executor_new 1000) 7 none [] (some 100) false false
        false ⟨7, 3, 0⟩).1.call_graph = [] := by
  decide

/-- C7.  `deconstruct`, on the outermost frame, yields exactly the
`Modify` entries for the non-deleted addresses of the top state map
followed by the `Delete` entries for the deleted set; no address occurs
both as a `Modify` and as a `Delete`, every `Modify` precedes every
`Delete`, and each group is sorted by strictly ascending address. -/
theorem deconstruct_journal_shape (current : StackSubstate)
    (graph : List InternalTransaction)
    (hstate : (current.state.map Prod.fst).Pairwise (· < ·))
    (hdel : current.deleted.Pairwise (· < ·)) :
    ∃ modifies deletes,
      deconstruct ⟨[current], graph⟩ = some (modifies ++ deletes, current.logs, graph) ∧
      modifies = (current.state.filter (fun kv => !(current.deleted.contains kv.1))).map
        (fun kv => Apply.Modify kv.1 kv.2.basic kv.2.code kv.2.storage kv.2.reset_storage) ∧
      deletes = current.deleted.map Apply.Delete ∧
      (∀ x ∈ modifies, x.isModify = true) ∧
      (∀ x ∈ deletes, x.isModify = false) ∧
      (∀ a, (∃ x ∈ modifies, x.address = a) → Apply.Delete a ∉ deletes) ∧
      (modifies.map Apply.address).Pairwise (· < ·) ∧
      (deletes.map Apply.address).Pairwise (· < ·) := by
  refine ⟨_, _, rfl, rfl, rfl, ?_, ?_, ?_, ?_, ?_⟩
  · intro x hx
    simp only [List.mem_map] at hx
    obtain ⟨kv, -, rfl⟩ := hx
    rfl
  · intro x hx
    simp only [List.mem_map] at hx
    obtain ⟨b, -, rfl⟩ := hx
    rfl
  · rintro a ⟨x, hx, hax⟩ hdelmem
    simp only [List.mem_map] at hx hdelmem
    obtain ⟨kv, hkv, rfl⟩ := hx
    obtain ⟨b, hb, hba⟩ := hdelmem
    cases hba
    simp only [List.mem_filter, Bool.not_eq_true', List.contains, List.elem_eq_mem,
      decide_eq_false_iff_not] at hkv
    have : kv.1 ∈ current.deleted := by
      simp only [Apply.address] at hax
      rw [hax]
      exact hb
    exact hkv.2 this
  · have hsub : ((current.state.filter
        (fun kv => !(current.deleted.contains kv.1))).map Prod.fst).Sublist
          (current.state.map Prod.fst) :=
      List.Sublist.map Prod.fst (List.filter_sublist _)
    have hpw := hstate.sublist hsub
    simpa [List.map_map, Function.comp, Apply.address] using hpw
  · have hco : (Apply.address ∘ Apply.Delete) = id := rfl
    rw [List.map_map, hco, List.map_id]
    exact hdel

/-- C7 witness: a two-account frame with one deleted address. -/
theorem deconstruct_journal_shape_witness :
    deconstruct ⟨[⟨Gasometer.new 5,
        [(1, ⟨⟨3, 4⟩, some [0], [(6, 7)], false⟩), (2, ⟨⟨8, 9⟩, none, [], true⟩)],
        [2], [], false, none⟩], []⟩
      = some ([Apply.Modify 1 ⟨3, 4⟩ (some [0]) [(6, 7)] false, Apply.Delete 2], [], []) := by
  obtain ⟨m, d, he, hm, hd, -, -, -, -, -⟩ := deconstruct_journal_shape
    ⟨Gasometer.new 5,
      [(1, ⟨⟨3, 4⟩, some [0], [(6, 7)], false⟩), (2, ⟨⟨8, 9⟩, none, [], true⟩)],
      [2], [], false, none⟩ [] (by decide) (by decide)
  subst hm
  subst hd
  rw [he]
  decide

/-- C8.  `transfer(src, dst, value)` between distinct accounts: when the
source balance is below `value` it returns `OutOfFund` and only touches the
source (no balance changes, no deposit); otherwise the withdrawal precedes
the deposit, the source balance drops by `value` and the target balance
rises by `value`; a zero-value transfer succeeds and still inserts both
accounts into the top frame. -/
theorem transfer_semantics (B : Backend) (top : StackSubstate) (rest : Substates)
    (src dst value : Nat) (hne : src ≠ dst) :
    (balanceOf B (top :: rest) src < value →
       transfer B (top :: rest) ⟨src, dst, value⟩
         = (touch B (top :: rest) src, some .OutOfFund) ∧
       balanceOf B (touch B (top :: rest) src) src = balanceOf B (top :: rest) src ∧
       balanceOf B (touch B (top :: rest) src) dst = balanceOf B (top :: rest) dst) ∧
    (value ≤ balanceOf B (top :: rest) src →
       (transfer B (top :: rest) ⟨src, dst, value⟩).2 = none ∧
       balanceOf B (transfer B (top :: rest) ⟨src, dst, value⟩).1 src
         = balanceOf B (top :: rest) src - value ∧
       balanceOf B (transfer B (top :: rest) ⟨src, dst, value⟩).1 dst
         = balanceOf B (top :: rest) dst + value) ∧
    (value = 0 →
       (transfer B (top :: rest) ⟨src, dst, value⟩).2 = none ∧
       (topLookup (transfer B (top :: rest) ⟨src, dst, value⟩).1 src).isSome = true ∧
       (topLookup (transfer B (top :: rest) ⟨src, dst, value⟩).1 dst).isSome = true) := by
  have hconsne : (top :: rest : Substates) ≠ [] := by simp
  refine ⟨?_, ?_, ?_⟩
  · intro hlt
    have hw := withdraw_fail_eq B (top :: rest) src value hconsne hlt
    refine ⟨?_, balanceOf_touch B _ src src, balanceOf_touch B _ src dst⟩
    simp only [transfer]
    rw [hw]
  · intro hge
    have hw := withdraw_ok_eq B (top :: rest) src value hconsne hge
    obtain ⟨st1, hst1⟩ := touch_cons B top rest src
    have htr : transfer B (top :: rest) ⟨src, dst, value⟩
        = (deposit B (setTopAccount (touch B (top :: rest) src) src
            { viewAccount B (top :: rest) src with basic :=
              { (viewAccount B (top :: rest) src).basic with
                balance := (viewAccount B (top :: rest) src).basic.balance - value } })
            dst value, none) := by
      simp only [transfer]
      rw [hw]
    rw [htr]
    refine ⟨rfl, ?_, ?_⟩
    · rw [balanceOf_deposit_ne B _ dst value src hne]
      rw [hst1]
      rw [balanceOf_setTop_self]
      simp only
      rw [← balanceOf_eq_view]
    · rw [hst1]
      rw [balanceOf_deposit_self B _ dst value (by simp [setTopAccount])]
      rw [balanceOf_setTop_ne B _ _ src dst _ (Ne.symm hne)]
      rw [← hst1, balanceOf_touch]
  · intro hzero
    subst hzero
    have hge : 0 ≤ balanceOf B (top :: rest) src := Nat.zero_le _
    have hw := withdraw_ok_eq B (top :: rest) src 0 hconsne hge
    obtain ⟨st1, hst1⟩ := touch_cons B top rest src
    have htr : transfer B (top :: rest) ⟨src, dst, 0⟩
        = (deposit B (setTopAccount (touch B (top :: rest) src) src
            { viewAccount B (top :: rest) src with basic :=
              { (viewAccount B (top :: rest) src).basic with
                balance := (viewAccount B (top :: rest) src).basic.balance - 0 } })
            dst 0, none) := by
      simp only [transfer]
      rw [hw]
    rw [htr]
    refine ⟨rfl, ?_, ?_⟩
    · simp only [deposit]
      rw [topLookup_update_ne B _ dst src _ hne]
      rw [hst1, topLookup_setTop_self]
      rfl
    · simp only [deposit]
      rw [hst1]
      rw [topLookup_update_self B _ dst _ (by simp [setTopAccount])]
      rfl

/-- C8 witness: a failing, a succeeding and a zero-value transfer on a
concrete two-account state. -/
theorem transfer_semantics_witness :
    (transfer B4 [⟨Gasometer.new 5, [], [], [], false, none⟩] ⟨5, 6, 11⟩).2
      = some ExitError.OutOfFund ∧
    balanceOf B4 (transfer B4 [⟨Gasometer.new 5, [], [], [], false, none⟩] ⟨5, 6, 4⟩).1 5 = 6 ∧
    balanceOf B4 (transfer B4 [⟨Gasometer.new 5, [], [], [], false, none⟩] ⟨5, 6, 4⟩).1 6 = 4 ∧
    (topLookup (transfer B4 [⟨Gasometer.new 5, [], [], [], false, none⟩] ⟨5, 6, 0⟩).1 6).isSome
      = true := by
  have hfail := (transfer_semantics B4 ⟨Gasometer.new 5, [], [], [], false, none⟩ [] 5 6 11
    (by decide)).1 (by decide)
  have hok := (transfer_semantics B4 ⟨Gasometer.new 5, [], [], [], false, none⟩ [] 5 6 4
    (by decide)).2.1 (by decide)
  have hz := ((transfer_semantics B4 ⟨Gasometer.new 5, [], [], [], false, none⟩ [] 5 6 0
    (by decide)).2.2 rfl).2.2
  refine ⟨?_, ?_, ?_, hz⟩
  · rw [hfail.1]
  · rw [hok.2.1]
    decide
  · rw [hok.2.2]
    decide

/-- C3.  The depth check of `call_inner` fires on the *new* frame's depth:
a call whose child frame sits at depth `call_stack_limit + 1` exits the
just-entered substate with kind `Reverted` and returns `CallTooDeep`
(whatever the transfer), while a call whose child frame sits at depth
`call_stack_limit` or below passes the depth check, the (absent) transfer
and the (absent) precompile, and is handed to the interpreter. -/
theorem call_inner_depth_boundary (B : Backend) (C : EvmConfig) (pre : Precompile)
    (O : RunOracle) (graph : List InternalTransaction) (top : StackSubstate)
    (rest : Substates) (d : Nat) (code_address : Nat) (transfer? : Option TransferT)
    (input : List Nat) (target_gas : Option Nat)
    (is_static take_l64 take_stipend : Bool) (context : Context)
    (hdepth : top.depth = some d) :
    (d + 1 = C.call_stack_limit + 1 →
       call_inner B C pre O ⟨top :: rest, graph⟩ code_address transfer? input
           target_gas is_static take_l64 take_stipend context
         = (⟨exit_substate (call_entered B C top rest target_gas is_static take_l64
               take_stipend transfer? context) .Reverted, graph⟩,
            ExitReason.Error .CallTooDeep, []) ∧
       topDepth (call_entered B C top rest target_gas is_static take_l64
         take_stipend transfer? context) = some (d + 1)) ∧
    (d + 1 ≤ C.call_stack_limit →
       call_inner_pre B C no_precompile (top :: rest) code_address none
           input target_gas is_static take_l64 take_stipend context
         = .ok (call_entered B C top rest target_gas is_static take_l64
               take_stipend none context,
             call_gas_limit C take_l64 top.gasometer.gas target_gas,
             codeOf B (top :: rest) code_address) ∧
       topDepth (call_entered B C top rest target_gas is_static take_l64
         take_stipend none context) = some (d + 1)) := by
  have hrc := record_cost_of_le top.gasometer
    (call_gas_limit C take_l64 top.gasometer.gas target_gas)
    (call_gas_limit_le C take_l64 top.gasometer.gas target_gas)
  have hdval : ∀ (t? : Option TransferT),
      topDepth (call_entered B C top rest target_gas is_static take_l64
        take_stipend t? context) = some (d + 1) := by
    intro t?
    unfold call_entered
    rw [topDepth_touch]
    simp only [enter_substate, topDepth]
    rw [hdepth]
  constructor
  · intro hlim
    have hgt : d + 1 > C.call_stack_limit := by omega
    refine ⟨?_, hdval transfer?⟩
    have hpre : call_inner_pre B C pre (top :: rest) code_address transfer? input
        target_gas is_static take_l64 take_stipend context = .error
        (exit_substate (call_entered B C top rest target_gas is_static take_l64
            take_stipend transfer? context) .Reverted,
         ExitReason.Error .CallTooDeep, []) := by
      simp only [call_inner_pre, call_entered, hrc, enter_substate, touch, alLookup,
        Option.isSome_none, Bool.false_eq_true, if_false, topDepth, hdepth,
        decide_eq_true hgt, if_true]
    simp only [call_inner, hpre]
  · intro hlim
    have hde : decide (d + 1 > C.call_stack_limit) = false :=
      decide_eq_false (by omega)
    refine ⟨?_, hdval none⟩
    simp only [call_inner_pre, call_entered, hrc, enter_substate, touch, alLookup,
      Option.isSome_none, Bool.false_eq_true, if_false, topDepth, hdepth,
      hde, no_precompile]
    rfl

/-- C3 witness: with `call_stack_limit = 1024`, a child frame at depth 1025
is rejected with `CallTooDeep` and a child frame at depth 1024 is handed
to the interpreter. -/
theorem call_inner_depth_boundary_witness :
    (call_inner B0 C0 no_precompile O0
        ⟨[⟨Gasometer.new 10, [], [], [], false, some 1024⟩], []⟩ 1 none [] (some 5)
        false false false ⟨1, 3, 0⟩).2.1 = ExitReason.Error .CallTooDeep ∧
    (call_inner_pre B0 C0 no_precompile [⟨Gasometer.new 10, [], [], [], false, some 1023⟩]
        1 none [] (some 5) false false false ⟨1, 3, 0⟩)
      = .ok (call_entered B0 C0 ⟨Gasometer.new 10, [], [], [], false, some 1023⟩ []
          (some 5) false false false none ⟨1, 3, 0⟩, 5, []) := by
  have h1 := (call_inner_depth_boundary B0 C0 no_precompile O0 []
    ⟨Gasometer.new 10, [], [], [], false, some 1024⟩ [] 1024 1 none [] (some 5)
    false false false ⟨1, 3, 0⟩ rfl).1 rfl
  have h2 := (call_inner_depth_boundary B0 C0 no_precompile O0 []
    ⟨Gasometer.new 10, [], [], [], false, some 1023⟩ [] 1023 1 none [] (some 5)
    false false false ⟨1, 3, 0⟩ rfl).2 (by norm_num [C0])
  constructor
  · rw [h1.1]
  · exact h2.1.trans rfl

/-- C4.  A create whose derived address carries non-empty effective code
(already in the substate overlay or freshly read from the backend) or a
non-zero nonce exits the child frame with kind `Failed` (the child is
discarded wholesale — in particular the parent receives no stipend) and
returns `CreateCollision`; at that point the caller's nonce has already
been incremented by exactly one and every account balance is unchanged
(no value was transferred). -/
theorem create_inner_collision (B : Backend) (C : EvmConfig) (H : HashOracle)
    (O : RunOracle) (graph : List InternalTransaction) (top : StackSubstate)
    (rest : Substates) (caller value : Nat) (scheme : CreateScheme)
    (init_code : List Nat) (target_gas : Option Nat) (take_l64 : Bool) (address : Nat)
    (haddr : address = create_address H B (top :: rest) scheme)
    (hdepth : depth_exceeded C top.depth = false)
    (hbal : value ≤ balanceOf B (top :: rest) caller)
    (hnc : address ≠ caller)
    (hcoll : effective_code B (top :: rest) address ≠ [] ∨
             (viewAccount B (top :: rest) address).basic.nonce ≠ 0) :
    create_inner B C H O ⟨top :: rest, graph⟩ caller scheme value init_code
        target_gas take_l64
      = (⟨create_collided B C top rest caller target_gas take_l64, graph⟩,
         ExitReason.Error .CreateCollision, none, []) ∧
    nonceOf B (create_collided B C top rest caller target_gas take_l64) caller
      = nonceOf B (top :: rest) caller + 1 ∧
    (∀ a, balanceOf B (create_collided B C top rest caller target_gas take_l64) a
      = balanceOf B (top :: rest) a) := by
  have hrc := record_cost_of_le top.gasometer
    (create_gas_limit C take_l64 top.gasometer.gas target_gas)
    (create_gas_limit_le C take_l64 top.gasometer.gas target_gas)
  have hbguard : ¬ balanceOf B (top :: rest) caller < value := Nat.not_lt.2 hbal
  have hsub2ne : account_mut_update B
      ({ top with gasometer := { top.gasometer with
           remaining := top.gasometer.remaining - create_gas_limit C take_l64 top.gasometer.gas target_gas } } :: rest)
      caller (fun a => { a with basic := { a.basic with nonce := a.basic.nonce + 1 } })
      ≠ [] := by
    obtain ⟨st2, hst2⟩ := account_mut_update_cons B
      { top with gasometer := { top.gasometer with
          remaining := top.gasometer.remaining - create_gas_limit C take_l64 top.gasometer.gas target_gas } }
      rest caller (fun a => { a with basic := { a.basic with nonce := a.basic.nonce + 1 } })
    rw [hst2]
    simp
  refine ⟨?_, ?_, ?_⟩
  · simp only [create_inner, hdepth, Bool.false_eq_true, if_false, if_neg hbguard, hrc,
      create_address_gas_irrel, ← haddr]
    rw [enter_substate_eq _ _ _ hsub2ne]
    simp only [touch, alLookup, Option.isSome_none, Bool.false_eq_true, if_false,
      viewAccount_cons_mk_empty, alInsert]
    rw [viewAccount_update_ne B _ caller address _ hnc]
    rw [viewAccount_gas_irrel B top rest
      { top.gasometer with remaining := top.gasometer.remaining - create_gas_limit C take_l64 top.gasometer.gas target_gas } address]
    simp only [topLookup, alLookup, eq_self_iff_true, if_true, Option.getD_some]
    cases hcode : (viewAccount B (top :: rest) address).code with
    | some c =>
      simp only
      by_cases hc0 : c = []
      · subst hc0
        have hdc : decide ((([] : List Nat)).length ≠ 0) = false := by decide
        simp only [hdc, Bool.false_eq_true, if_false]
        have hA : ¬ effective_code B (top :: rest) address ≠ [] := by
          rw [effective_code, hcode]
          simp
        have hnz := hcoll.resolve_left hA
        rw [nonceOf_cons_mk_single]
        rw [if_pos (Nat.pos_of_ne_zero hnz)]
        rw [exit_failed_mk_any _ _ _ _ _ _ hsub2ne]
        rfl
      · have hdc : decide (c.length ≠ 0) = true := by
          simp [List.length_eq_zero, hc0]
        simp only [hdc, if_true]
        rw [exit_failed_mk_any _ _ _ _ _ _ hsub2ne]
        rfl
    | none =>
      simp only
      by_cases hbc : B.code address = []
      · simp only [hbc]
        have hdc : decide ((([] : List Nat)).length ≠ 0) = false := by decide
        simp only [hdc, Bool.false_eq_true, if_false]
        have hA : ¬ effective_code B (top :: rest) address ≠ [] := by
          rw [effective_code, hcode]
          simpa using hbc
        have hnz := hcoll.resolve_left hA
        rw [nonceOf_update_self_basic B _ address
          (fun a => { a with code := some ([] : List Nat) }) (by simp) (fun a => rfl)]
        rw [nonceOf_cons_mk_single]
        rw [if_pos (Nat.pos_of_ne_zero hnz)]
        rw [exit_failed_update_mk2 B _ _ _ _ _ _ address _ hsub2ne]
        rfl
      · have hdc : decide ((B.code address).length ≠ 0) = true := by
          simp [List.length_eq_zero, hbc]
        simp only [hdc, if_true]
        rw [exit_failed_update_mk2 B _ _ _ _ _ _ address _ hsub2ne]
        rfl
  · have h1 := account_lookup_update_self B
      ({ top with gasometer := { top.gasometer with
           remaining := top.gasometer.remaining - create_gas_limit C take_l64 top.gasometer.gas target_gas } } :: rest)
      caller (fun a => { a with basic := { a.basic with nonce := a.basic.nonce + 1 } })
      (by simp)
    have h2 : nonceOf B (create_collided B C top rest caller target_gas take_l64) caller
        = (viewAccount B ({ top with gasometer := { top.gasometer with
            remaining := top.gasometer.remaining - create_gas_limit C take_l64 top.gasometer.gas target_gas } } :: rest)
            caller).basic.nonce + 1 := by
      unfold create_collided nonceOf
      rw [h1]
    rw [h2, viewAccount_gas_irrel B top rest _ caller, ← nonceOf_eq_view]
  · intro a
    by_cases hac : a = caller
    · rw [hac]
      have h1 := account_lookup_update_self B
        ({ top with gasometer := { top.gasometer with
             remaining := top.gasometer.remaining - create_gas_limit C take_l64 top.gasometer.gas target_gas } } :: rest)
        caller (fun x => { x with basic := { x.basic with nonce := x.basic.nonce + 1 } })
        (by simp)
      have h2 : balanceOf B (create_collided B C top rest caller target_gas take_l64) caller
          = (viewAccount B ({ top with gasometer := { top.gasometer with
              remaining := top.gasometer.remaining - create_gas_limit C take_l64 top.gasometer.gas target_gas } } :: rest)
              caller).basic.balance := by
        unfold create_collided balanceOf
        rw [h1]
      rw [h2, viewAccount_gas_irrel B top rest _ caller, ← balanceOf_eq_view]
    · unfold create_collided
      rw [balanceOf_congr B _ _ a (account_lookup_update_ne B _ caller a _ hac)]
      exact balanceOf_congr B _ _ a (account_lookup_gas_irrel top rest _ a)

/-- C4 witness: CREATE to a fixed address whose backend code has length 3;
the caller (balance 10, nonce 0) ends with nonce 1 and balance 10, the
result is `CreateCollision`. -/
theorem create_inner_collision_witness :
    (create_inner B4 C0 H0 O0 ⟨[⟨Gasometer.new 1000, [], [], [], false, none⟩], []⟩
        5 (.Fixed 9) 7 [] none false).2.1 = ExitReason.Error .CreateCollision ∧
    nonceOf B4 (create_inner B4 C0 H0 O0
        ⟨[⟨Gasometer.new 1000, [], [], [], false, none⟩], []⟩
        5 (.Fixed 9) 7 [] none false).1.substates 5 = 1 ∧
    balanceOf B4 (create_inner B4 C0 H0 O0
        ⟨[⟨Gasometer.new 1000, [], [], [], false, none⟩], []⟩
        5 (.Fixed 9) 7 [] none false).1.substates 5 = 10 ∧
    balanceOf B4 (create_inner B4 C0 H0 O0
        ⟨[⟨Gasometer.new 1000, [], [], [], false, none⟩], []⟩
        5 (.Fixed 9) 7 [] none false).1.substates 9 = 0 := by
  have h := create_inner_collision B4 C0 H0 O0 []
    ⟨Gasometer.new 1000, [], [], [], false, none⟩ [] 5 7 (.Fixed 9) [] none false 9
    rfl (by decide) (by decide) (by decide) (Or.inl (by decide))
  refine ⟨?_, ?_, ?_, ?_⟩
  · rw [h.1]
  · rw [h.1]
    exact h.2.1.trans (by decide)
  · rw [h.1]
    exact (h.2.2 5).trans (by decide)
  · rw [h.1]
    exact (h.2.2 9).trans (by decide)

/-- C10.  A failing withdraw still inserts the source account into the top
frame via `account_mut` before returning `OutOfFund`, with balance and
nonce untouched by the withdrawal; consequently, after a top-level
`transact_call` whose value transfer fails, the caller appears as a
`Modify` entry in the final journal — its nonce bumped by `transact_call`
itself, its balance unchanged. -/
theorem withdraw_touch_and_journal (B : Backend) (C : EvmConfig) (pre : Precompile)
    (O : RunOracle) (caller address value : Nat) (data : List Nat) (gas_limit : Nat)
    (h21 : 21000 ≤ gas_limit)
    (hbal : (B.basic caller).balance < value)
    (hne : caller ≠ address) :
    (∀ (topW : StackSubstate) (restW : Substates) (src v : Nat),
       balanceOf B (topW :: restW) src < v →
       withdraw B (topW :: restW) src v
         = (touch B (topW :: restW) src, some .OutOfFund) ∧
       topLookup (touch B (topW :: restW) src) src
         = some (viewAccount B (topW :: restW) src) ∧
       (viewAccount B (topW :: restW) src).basic.balance
         = balanceOf B (topW :: restW) src ∧
       (viewAccount B (topW :: restW) src).basic.nonce
         = nonceOf B (topW :: restW) src) ∧
    (transact_call B C pre O ⟨[⟨Gasometer.new gas_limit, [], [], [], false, none⟩], []⟩
        caller address value data gas_limit
      = (⟨[⟨⟨gas_limit, gas_limit - 21000, 0⟩,
            [(caller, ⟨⟨(B.basic caller).balance, (B.basic caller).nonce + 1⟩, none, [], false⟩)],
            [], [], false, none⟩], []⟩, ExitReason.Error .OutOfFund, []) ∧
     deconstruct ⟨[⟨⟨gas_limit, gas_limit - 21000, 0⟩,
            [(caller, ⟨⟨(B.basic caller).balance, (B.basic caller).nonce + 1⟩, none, [], false⟩)],
            [], [], false, none⟩], []⟩
       = some ([Apply.Modify caller ⟨(B.basic caller).balance, (B.basic caller).nonce + 1⟩
                  none [] false], [], [])) := by
  constructor
  · intro topW restW src v hlt
    exact ⟨withdraw_fail_eq B _ src v (by simp) hlt,
           topLookup_touch_self B _ src (by simp),
           (balanceOf_eq_view B _ src).symm,
           (nonceOf_eq_view B _ src).symm⟩
  · have hne2 : address ≠ caller := Ne.symm hne
    refine ⟨?_, by simp [deconstruct]⟩
    obtain ⟨rem, hrem⟩ : ∃ r, r = gas_limit - 21000 := ⟨_, rfl⟩
    rw [← hrem]
    have hremle : rem ≤ gas_limit := by
      rw [hrem]
      exact Nat.sub_le _ _
    have hsubs2 : account_mut_update B
        [⟨⟨gas_limit, rem, 0⟩, [], [], [], false, none⟩] caller
        (fun a => { a with basic := { a.basic with nonce := a.basic.nonce + 1 } })
        = [⟨⟨gas_limit, rem, 0⟩,
            [(caller, ⟨⟨(B.basic caller).balance, (B.basic caller).nonce + 1⟩, none, [], false⟩)],
            [], [], false, none⟩] := by
      simp [account_mut_update, touch, alLookup, viewAccount, account_lookup,
        default_account, topLookup, setTopAccount, alInsert]
    have hcgl : call_gas_limit C false rem (some gas_limit) = rem := by
      unfold call_gas_limit
      simp only [Bool.false_and, Bool.false_eq_true, if_false, Option.getD_some]
      exact min_eq_right hremle
    have hrc10 : Gasometer.record_cost ⟨gas_limit, rem, 0⟩ rem
        = Except.ok ⟨gas_limit, 0, 0⟩ := by
      rw [record_cost_of_le _ _ (le_refl _)]
      simp only [Nat.sub_self]
    have hpre : call_inner_pre B C pre
        [⟨⟨gas_limit, rem, 0⟩,
          [(caller, ⟨⟨(B.basic caller).balance, (B.basic caller).nonce + 1⟩, none, [], false⟩)],
          [], [], false, none⟩]
        address (some ⟨caller, address, value⟩) data (some gas_limit) false false false
        ⟨address, caller, value⟩
      = .error ([⟨⟨gas_limit, rem, 0⟩,
          [(caller, ⟨⟨(B.basic caller).balance, (B.basic caller).nonce + 1⟩, none, [], false⟩)],
          [], [], false, none⟩], ExitReason.Error .OutOfFund, []) := by
      simp only [call_inner_pre, gas_def, hrc10, hcgl, Bool.false_and, Bool.false_eq_true,
        if_false, enter_substate, Bool.or_false, Bool.false_or, touch, alLookup,
        Option.isSome_none, viewAccount, account_lookup, default_account, Option.getD_none,
        alInsert, topDepth, hne2, Nat.not_lt_zero, decide_False, transfer]
      rw [withdraw_fail_eq B _ caller value (by simp)
        (by simpa [balanceOf, account_lookup, alLookup, hne] using hbal)]
      simp only [Option.getD_none]
      rw [exit_reverted_touch_mk]
      simp only [Gasometer.record_stipend, gas_def, new_def, Nat.zero_add]
    simp only [transact_call, Gasometer.record_transaction, call_transaction_cost]
    rw [record_cost_of_le (Gasometer.new gas_limit) 21000
      (by simpa [new_def] using h21)]
    simp only [new_def]
    rw [← hrem]
    rw [hsubs2]
    simp only [call_inner, hpre]

/-- C10 witness: caller 2 holds balance 1 and nonce 4; calling address 3
with value 5 fails with `OutOfFund`, yet the journal contains
`Modify 2` with the original balance and the bumped nonce. -/
theorem withdraw_touch_and_journal_witness :
    (transact_call B10 C0 no_precompile O0
        ⟨[⟨Gasometer.new 21000, [], [], [], false, none⟩], []⟩ 2 3 5 [] 21000).2.1
      = ExitReason.Error .OutOfFund ∧
    deconstruct (transact_call B10 C0 no_precompile O0
        ⟨[⟨Gasometer.new 21000, [], [], [], false, none⟩], []⟩ 2 3 5 [] 21000).1
      = some ([Apply.Modify 2 ⟨1, 5⟩ none [] false], [], []) ∧
    (withdraw B10 [⟨Gasometer.new 9, [], [], [], false, none⟩] 2 7).2
      = some ExitError.OutOfFund := by
  have h := withdraw_touch_and_journal B10 C0 no_precompile O0 2 3 5 [] 21000
    (le_refl _) (by decide) (by decide)
  refine ⟨?_, ?_, ?_⟩
  · rw [h.2.1]
  · rw [h.2.1]
    decide
  · have ha := h.1 ⟨Gasometer.new 9, [], [], [], false, none⟩ [] 2 7 (by decide)
    rw [ha.1]

end CloverEvm
